import Mathlib

/-!
Shallow embedding of the consensus-set rolling-update orchestrator
(`controllers/apps/components/consensusset`): role-priority classification,
update-plan construction (step tree), plan walking, status reconciliation and
config propagation, together with proofs of the specification claims.

Go maps are embedded as association lists where insertion prepends and lookup
returns the first match (so a later insertion overrides an earlier one, as in
Go), with the Go zero-value default on a missing key.
-/

namespace ConsensusSet

/-- A pod observation: the fields of `corev1.Pod` the orchestrator reads.
`role` is `labels[RoleLabelKey]`, `revision` is `util.GetPodRevision`,
`ready` is `util.PodIsReady`, `terminating` is `DeletionTimestamp != nil`,
`ordinal` is `intctrlutil.GetParentNameAndOrdinal`. -/
structure Pod where
  name : String
  ordinal : Nat
  role : String
  revision : String
  ready : Bool
  terminating : Bool
deriving DecidableEq, Repr

/-- Embeds `appsv1alpha1.ConsensusMember`: a role entry of the component spec.
Access modes are the strings "None", "Readonly", "ReadWrite". -/
structure ConsensusMember where
  name : String
  accessMode : String
deriving DecidableEq, Repr

/-- Embeds `appsv1alpha1.ConsensusSetSpec`. `updateStrategy` keeps the Go string
type (values "Serial", "Parallel", "BestEffortParallel"; the zero value ""
matches no case of the strategy switch). -/
structure ConsensusSetSpec where
  leader : ConsensusMember
  followers : List ConsensusMember
  learner : Option ConsensusMember
  updateStrategy : String
deriving DecidableEq, Repr

/-- Embeds `appsv1alpha1.ClusterComponentDefinition`, restricted to the fields this
file reads. `consensusSpec = none` embeds a nil `ConsensusSpec` pointer. -/
structure ClusterComponentDefinition where
  workloadType : String
  consensusSpec : Option ConsensusSetSpec
deriving DecidableEq, Repr

/-- Lexicographic comparison of character sequences by code point: the
order `strings.Compare` induces on the (UTF-8) pod names. -/
def charListLe : List Char → List Char → Bool
  | [], _ => true
  | _ :: _, [] => false
  | a :: as, b :: bs =>
      if a.toNat < b.toNat then true
      else if b.toNat < a.toNat then false
      else charListLe as bs

/-- Embeds `strings.Compare(a, b) <= 0`. -/
def strLe (a b : String) : Bool :=
  charListLe a.data b.data

def accessModeNone : String := "None"
def accessModeReadonly : String := "Readonly"
def accessModeReadWrite : String := "ReadWrite"

def serialStrategy : String := "Serial"
def parallelStrategy : String := "Parallel"
def bestEffortParallelStrategy : String := "BestEffortParallel"

/-- Modelled from the spec: `appsv1alpha1.DefaultLeader`, the synthesized
default leader used when the consensus specification is absent (the constant
lives in the API package, outside the sources at hand). -/
def DefaultLeader : ConsensusMember :=
  { name := "leader", accessMode := accessModeReadWrite }

def leaderPriority : Nat := 2 ^ 5
def followerReadWritePriority : Nat := 2 ^ 4
def followerReadonlyPriority : Nat := 2 ^ 3
def followerNonePriority : Nat := 2 ^ 2
def learnerPriority : Nat := 2 ^ 1
def emptyPriority : Nat := 2 ^ 0

/-- The role-priority map `map[string]int`, as an association list. -/
def RoleMap : Type := List (String × Nat)

instance : DecidableEq RoleMap :=
  inferInstanceAs (DecidableEq (List (String × Nat)))

instance : Membership (String × Nat) RoleMap :=
  inferInstanceAs (Membership (String × Nat) (List (String × Nat)))

/-- Go map assignment `m[k] = v`: a later write overrides an earlier one. -/
def mapInsert (m : RoleMap) (k : String) (v : Nat) : RoleMap :=
  (k, v) :: m

/-- Go map lookup `m[k]` with the int zero value on a missing key. -/
def prioOf (m : RoleMap) (k : String) : Nat :=
  match m.find? (fun e => e.1 == k) with
  | some e => e.2
  | none => 0

/-- Go `_, ok := m[k]` membership test. -/
def mapHasKey (m : RoleMap) (k : String) : Bool :=
  (m.find? (fun e => e.1 == k)).isSome

/-- The priority contributed by one follower entry of the spec:
the `switch follower.AccessMode` of `ComposeRolePriorityMap`; an access
mode matching no case inserts nothing. -/
def followerInsert (m : RoleMap) (f : ConsensusMember) : RoleMap :=
  if f.accessMode = accessModeNone then mapInsert m f.name followerNonePriority
  else if f.accessMode = accessModeReadonly then mapInsert m f.name followerReadonlyPriority
  else if f.accessMode = accessModeReadWrite then mapInsert m f.name followerReadWritePriority
  else m

/-- The spec value actually used by `ComposeRolePriorityMap`: the component's
spec, or — when the `ConsensusSpec` pointer is nil — the synthesized
`&ConsensusSetSpec{Leader: DefaultLeader}` (remaining fields zero-valued). -/
def effectiveConsensusSpec (c : ClusterComponentDefinition) : ConsensusSetSpec :=
  match c.consensusSpec with
  | some s => s
  | none => { leader := DefaultLeader, followers := [], learner := none, updateStrategy := "" }

/-- Embeds `ComposeRolePriorityMap`. -/
def ComposeRolePriorityMap (c : ClusterComponentDefinition) : RoleMap :=
  let spec := effectiveConsensusSpec c
  let m : RoleMap := []
  let m := mapInsert m "" emptyPriority
  let m := mapInsert m spec.leader.name leaderPriority
  let m := match spec.learner with
    | some l => mapInsert m l.name learnerPriority
    | none => m
  spec.followers.foldl followerInsert m

/-- Embeds `util.Step`: a node of the plan's step tree, carrying a pod and its
`NextSteps` children. -/
inductive Step : Type where
  | mk (obj : Pod) (next : List Step) : Step
deriving Repr

def Step.obj : Step → Pod
  | .mk o _ => o

def Step.next : Step → List Step
  | .mk _ n => n

/-- Realizes the plan builders' shared append-and-descend mechanics on the
step tree: each group's pods are appended as fresh steps to the current
node's `NextSteps`, then (`if len(start.NextSteps) > 0`) the current node
moves to its first child before the next group is appended. The Go builders
only ever append at the moving `start` pointer, so the tree below the plan
root is exactly this function of the successive pod groups. -/
def buildSteps : List (List Pod) → List Step
  | [] => []
  | [] :: rest => buildSteps rest
  | (p :: ps) :: rest =>
      Step.mk p (buildSteps rest) :: ps.map (fun q => Step.mk q [])

/-- The batches of a step tree as the walker traverses them: the steps at
one level form a batch, and the walk continues at the first step's
`NextSteps` (the "first child continues the chain, siblings are parallel"
convention of `util.Plan`). -/
def batchesOf : List Step → List (List Pod)
  | [] => []
  | s :: rest => ((s :: rest).map Step.obj) :: batchesOf s.next
termination_by l => sizeOf l
decreasing_by
  cases s with
  | mk o n => simp [Step.next]; omega

/-- All pods reachable by the walker in a plan's step list. -/
def planPods (steps : List Step) : List Pod :=
  (batchesOf steps).flatten

/-- The comparison closure of `SortPods`: priority ascending, ties broken by
ordinal ascending. -/
def podLess (m : RoleMap) (a b : Pod) : Bool :=
  if prioOf m a.role = prioOf m b.role then decide (a.ordinal < b.ordinal)
  else decide (prioOf m a.role < prioOf m b.role)

/-- The non-strict order a list sorted by `podLess` satisfies pairwise. -/
def podLe (m : RoleMap) (a b : Pod) : Prop :=
  podLess m b a = false

instance (m : RoleMap) : DecidableRel (podLe m) :=
  fun a b => inferInstanceAs (Decidable (podLess m b a = false))

/-- Embeds `SortPods`: the stable sort of the pod list by `podLess`
(`sort.SliceStable`), embedded as an insertion sort on the same order. -/
def SortPods (pods : List Pod) (m : RoleMap) : List Pod :=
  List.insertionSort (podLe m) pods

/-- Embeds `generateConsensusSerialPlan`: each pod is appended at the moving
`start`, which then advances to the step just appended — a chain of
singleton batches. -/
def generateConsensusSerialPlan (pods : List Pod) : List Step :=
  buildSteps (pods.map (fun p => [p]))

/-- Embeds `generateConsensusParallelPlan`: every pod appended to the plan root,
one batch. -/
def generateConsensusParallelPlan (pods : List Pod) : List Step :=
  buildSteps [pods]

/-- The four pod groups `generateConsensusBestEffortParallelPlan` appends,
computed exactly as the Go function does: the first loop collects every pod
with priority at most `learnerPriority` while counting them in `index`; the
remainder `pods[index:]` is split after `followerCount/2` and again after
`followerCount - followerCount/2` elements, where `followerCount` counts the
remaining pods with priority below `leaderPriority`. -/
def bestEffortGroups (pods : List Pod) (m : RoleMap) : List (List Pod) :=
  let g1 := pods.filter (fun pod => prioOf m pod.role ≤ learnerPriority)
  let index := g1.length
  let podList := pods.drop index
  let followerCount := podList.countP (fun pod => decide (prioOf m pod.role < leaderPriority))
  let e := followerCount / 2
  let g2 := podList.take e
  let podList2 := podList.drop e
  let e2 := followerCount - e
  let g3 := podList2.take e2
  let g4 := podList2.drop e2
  [g1, g2, g3, g4]

/-- Embeds `generateConsensusBestEffortParallelPlan`. -/
def generateConsensusBestEffortParallelPlan (pods : List Pod) (m : RoleMap) : List Step :=
  buildSteps (bestEffortGroups pods m)

/-- The `WalkFunc` closure of `generateConsensusUpdatePlan`, as the pure pair
(first return value `true` = "not yet settled", delete issued): a
terminating pod returns `true` with no delete; a pod at the target update
revision returns `!ready` with no delete; otherwise the pod is deleted and
`true` returned. -/
def walkFunc (target : String) (pod : Pod) : Bool × Bool :=
  if pod.terminating then (true, false)
  else if pod.revision = target then (!pod.ready, false)
  else (true, true)

/-- The step list built by `generateConsensusUpdatePlan` below the plan
root: pods are sorted by `SortPods` under `ComposeRolePriorityMap`, then the
strategy switch selects a builder (a strategy string matching no case leaves
the plan empty). Reading `component.ConsensusSpec.UpdateStrategy`
dereferences the spec pointer, so a nil spec is the `none` outcome. -/
def generateConsensusUpdatePlan (c : ClusterComponentDefinition) (pods : List Pod) :
    Option (List Step) :=
  match c.consensusSpec with
  | none => none
  | some spec =>
      let m := ComposeRolePriorityMap c
      let sorted := SortPods pods m
      some (if spec.updateStrategy = serialStrategy then generateConsensusSerialPlan sorted
        else if spec.updateStrategy = parallelStrategy then generateConsensusParallelPlan sorted
        else if spec.updateStrategy = bestEffortParallelStrategy then
          generateConsensusBestEffortParallelPlan sorted m
        else [])

/-- Modelled from the spec: `util.Plan.WalkOneStep` (the walker lives in the
`util` package, outside the sources at hand). Batches are evaluated from the
earliest; every pod of the current batch is classified by the walk function
(collecting the deletes it issues); a fully settled batch advances the walk
to the first step's children within the same call; the walk stops at the
first unsettled batch; `complete` is `true` iff every batch evaluated as
fully settled. -/
def walkSteps (target : String) : List Step → Bool × List String
  | [] => (true, [])
  | s :: rest =>
      let pods := (s :: rest).map Step.obj
      let deletes := (pods.filter (fun p => (walkFunc target p).2)).map Pod.name
      if pods.all (fun p => !(walkFunc target p).1) then
        let r := walkSteps target s.next
        (r.1, deletes ++ r.2)
      else (false, deletes)
termination_by l => sizeOf l
decreasing_by
  cases s with
  | mk o n => simp [Step.next]; omega

def roleLeader : String := "Leader"
def roleFollower : String := "Follower"
def roleLearner : String := "Learner"

/-- Embeds `consensusMemberExt`. -/
structure ConsensusMemberExt where
  name : String
  consensusRole : String
  accessMode : String
  podName : String
deriving DecidableEq, Repr

/-- The role-label → member map `map[string]consensusMemberExt`, as an
association list with the same prepend/first-match convention as `RoleMap`. -/
def RoleExtMap : Type := List (String × ConsensusMemberExt)

instance : DecidableEq RoleExtMap :=
  inferInstanceAs (DecidableEq (List (String × ConsensusMemberExt)))

def extLookup (m : RoleExtMap) (k : String) : Option ConsensusMemberExt :=
  (m.find? (fun e => e.1 == k)).map (·.2)

/-- Embeds `putConsensusMemberExt`: inserts nothing when the name, the role or the
access mode is the empty string. (The Go nil-map guard cannot fire here: the
map is always freshly allocated by its only caller.) -/
def putConsensusMemberExt (roleMap : RoleExtMap) (name : String) (role : String)
    (accessMode : String) : RoleExtMap :=
  if name = "" ∨ role = "" ∨ accessMode = "" then roleMap
  else (name, { name := name, consensusRole := role, accessMode := accessMode,
                podName := "" }) :: roleMap

/-- The body of `composeConsensusRoleMap` once the consensus spec pointer has
been dereferenced. -/
def composeConsensusRoleMapSpec (spec : ConsensusSetSpec) : RoleExtMap :=
  let roleMap : RoleExtMap := []
  let roleMap := putConsensusMemberExt roleMap spec.leader.name roleLeader spec.leader.accessMode
  let roleMap := spec.followers.foldl
    (fun acc f => putConsensusMemberExt acc f.name roleFollower f.accessMode) roleMap
  match spec.learner with
  | some l => putConsensusMemberExt roleMap l.name roleLearner l.accessMode
  | none => roleMap

/-- The Go `composeConsensusRoleMap` reads `componentDef.ConsensusSpec.Leader` with
no nil check, so a component whose `ConsensusSpec` pointer is nil makes it
panic: that is the `none` outcome. -/
def composeConsensusRoleMap (c : ClusterComponentDefinition) : Option RoleExtMap :=
  c.consensusSpec.map composeConsensusRoleMapSpec

/-- Embeds `appsv1alpha1.ConsensusMemberStatus`. -/
structure ConsensusMemberStatus where
  name : String
  pod : String
  accessMode : String
deriving DecidableEq, Repr

/-- Embeds `appsv1alpha1.ConsensusSetStatus`: a single leader slot, the follower
list, and an optional learner slot (a nil pointer in Go). -/
structure ConsensusSetStatus where
  leader : ConsensusMemberStatus
  followers : List ConsensusMemberStatus
  learner : Option ConsensusMemberStatus
deriving DecidableEq, Repr

/-- Modelled from the spec: `util.ComponentStatusDefaultPodName`, the
sentinel pod name marking the leader slot empty (the constant lives in the
`util` package, outside the sources at hand). -/
def componentStatusDefaultPodName : String := "Unknown"

/-- Embeds `setConsensusSetStatusLeader`: overwrite the leader slot unless it
already names this pod; the Bool reports whether the status changed. -/
def setConsensusSetStatusLeader (s : ConsensusSetStatus) (m : ConsensusMemberExt) :
    ConsensusSetStatus × Bool :=
  if s.leader.pod = m.podName then (s, false)
  else ({ s with leader := { name := m.name, pod := m.podName, accessMode := m.accessMode } },
        true)

def followerPodLe (a b : ConsensusMemberStatus) : Prop :=
  strLe a.pod b.pod = true

instance : DecidableRel followerPodLe :=
  fun a b => inferInstanceAs (Decidable (strLe a.pod b.pod = true))

/-- Embeds `setConsensusSetStatusFollower`: skip if some follower already names
this pod, else append and re-sort the followers by pod name
(`sort.SliceStable` on `strings.Compare(fi.Pod, fj.Pod) < 0`). -/
def setConsensusSetStatusFollower (s : ConsensusSetStatus) (m : ConsensusMemberExt) :
    ConsensusSetStatus × Bool :=
  if s.followers.any (fun f => f.pod == m.podName) then (s, false)
  else
    let appended := s.followers ++ [{ name := m.name, pod := m.podName,
                                      accessMode := m.accessMode }]
    ({ s with followers := List.insertionSort followerPodLe appended }, true)

/-- Embeds `setConsensusSetStatusLearner`: a nil learner slot is first allocated
zero-valued, then overwritten unless it already names this pod. -/
def setConsensusSetStatusLearner (s : ConsensusSetStatus) (m : ConsensusMemberExt) :
    ConsensusSetStatus × Bool :=
  let cur := match s.learner with
    | none => { name := "", pod := "", accessMode := "" }
    | some l => l
  if cur.pod = m.podName then ({ s with learner := some cur }, false)
  else ({ s with learner := some { name := m.name, pod := m.podName, accessMode := m.accessMode } },
        true)

/-- Embeds `resetConsensusSetStatusRole`: clear every slot currently naming
`podName` — the leader slot back to the sentinel, the matching follower
removed, a matching learner back to nil. The Go follower removal iterates
with in-place deletion, which on a follower list free of duplicate pod names
(the shape every caller maintains) removes exactly the matching entries;
it is embedded as that filter. -/
def resetConsensusSetStatusRole (s : ConsensusSetStatus) (podName : String) :
    ConsensusSetStatus :=
  let s := if s.leader.pod = podName then
      { s with leader := { name := "", pod := componentStatusDefaultPodName,
                           accessMode := accessModeNone } }
    else s
  let s := { s with followers := s.followers.filter (fun f => !(f.pod == podName)) }
  match s.learner with
  | some l => if l.pod = podName then { s with learner := none } else s
  | none => s

/-- Embeds `setConsensusSetStatusRole`: look the label up in the role map (an
unknown label changes nothing and reports `false`), clear the pod from every
slot, then install it in the slot its role selects. The `none` outcome is
the panic of `composeConsensusRoleMap` on a nil consensus spec. -/
def setConsensusSetStatusRole (s : ConsensusSetStatus) (c : ClusterComponentDefinition)
    (role : String) (podName : String) : Option (ConsensusSetStatus × Bool) :=
  (composeConsensusRoleMap c).map (fun roleMap =>
    match extLookup roleMap role with
    | none => (s, false)
    | some ext =>
        let memberExt := { ext with podName := podName }
        let s := resetConsensusSetStatusRole s memberExt.podName
        if memberExt.consensusRole = roleLeader then setConsensusSetStatusLeader s memberExt
        else if memberExt.consensusRole = roleFollower then setConsensusSetStatusFollower s memberExt
        else if memberExt.consensusRole = roleLearner then setConsensusSetStatusLearner s memberExt
        else (s, false))

/-- Embeds `setConsensusSetStatusRoles`: fold the role update over the ready pods,
skipping pods that are not ready. -/
def setConsensusSetStatusRoles (s : ConsensusSetStatus) (c : ClusterComponentDefinition)
    (pods : List Pod) : Option ConsensusSetStatus :=
  pods.foldlM (fun st pod =>
    if !pod.ready then some st
    else (setConsensusSetStatusRole st c pod.role pod.name).map (·.1)) s

/-- The fresh status `handleConsensusSetUpdate` starts every pass from. -/
def initialConsensusSetStatus : ConsensusSetStatus :=
  { leader := { name := "", pod := componentStatusDefaultPodName, accessMode := accessModeNone },
    followers := [], learner := none }

/-- The new status a pass computes: the role fold applied to the fresh
initial status — the previous status is never an input. -/
def computeNewStatus (c : ClusterComponentDefinition) (pods : List Pod) :
    Option ConsensusSetStatus :=
  setConsensusSetStatusRoles initialConsensusSetStatus c pods

/-- One status-reconciliation pass: the fresh status plus the changed flag
`!cmp.Equal(newConsensusSetStatus, oldConsensusSetStatus)` (the old status
is a possibly-nil pointer). -/
def reconcileStatusPass (old : Option ConsensusSetStatus) (c : ClusterComponentDefinition)
    (pods : List Pod) : Option (ConsensusSetStatus × Bool) :=
  (computeNewStatus c pods).map (fun nw => (nw, decide (some nw ≠ old)))

/-- The fields of the observed StatefulSet that `handleConsensusSetUpdate`
reads. -/
structure StatefulSetObs where
  generation : Nat
  observedGeneration : Nat
  replicas : Nat
  updateRevision : String
deriving DecidableEq, Repr

def consensusWorkloadType : String := "Consensus"

/-- A config record (`corev1.ConfigMap`): its `Data` string map, as an
association list with the prepend/first-match convention. -/
structure ConfigRec where
  data : List (String × String)
deriving DecidableEq, Repr

def dataLookup (d : List (String × String)) (k : String) : Option String :=
  (d.find? (fun e => e.1 == k)).map (·.2)

/-- The leader / followers accumulation loop of `updateConsensusRoleInfo`:
pods are scanned in list order; a pod whose label the role map resolves to
the leader role overwrites `leader`; a follower-role pod appends its name to
the comma-joined `followers` string; a learner or unknown label contributes
nothing. The role map is recomposed inside the loop, so with a nil consensus
spec the first pod panics (`none`). -/
def consensusRoleInfo (c : ClusterComponentDefinition) (pods : List Pod) :
    Option (String × String) :=
  pods.foldlM (fun acc pod =>
    (composeConsensusRoleMap c).map (fun roleMap =>
      match extLookup roleMap pod.role with
      | none => acc
      | some ext =>
          if ext.consensusRole = roleLeader then (pod.name, acc.2)
          else if ext.consensusRole = roleFollower then
            (acc.1, if acc.2.length > 0 then acc.2 ++ "," ++ pod.name else acc.2 ++ pod.name)
          else acc)) ("", "")

/-- Embeds `updateConsensusRoleInfo`: every config record matching the component
gets `KB_<COMPONENT>_LEADER` and `KB_<COMPONENT>_FOLLOWERS` set from the
accumulated role info. -/
def updateConsensusRoleInfo (c : ClusterComponentDefinition) (componentName : String)
    (pods : List Pod) (configs : List ConfigRec) : Option (List ConfigRec) :=
  (consensusRoleInfo c pods).map (fun info =>
    configs.map (fun cfg =>
      let d := ("KB_" ++ componentName.toUpper ++ "_LEADER", info.1) :: cfg.data
      { cfg with data := ("KB_" ++ componentName.toUpper ++ "_FOLLOWERS", info.2) :: d }))

/-- The externally visible outcome of one `handleConsensusSetUpdate` pass in
the pure embedding: the `(bool, error-free)` return value `done`, the fresh
status when the pass computed one, the changed flag that gates the status
patch and the config propagation, the config records after the pass, whether
a plan was built and walked, and the pod deletes the walk issued. -/
structure HandleResult where
  done : Bool
  newStatus : Option ConsensusSetStatus
  changed : Bool
  planned : Bool
  deletes : List String
  configs : List ConfigRec
deriving DecidableEq, Repr

/-- Embeds `handleConsensusSetUpdate`, with the transport I/O elided: a
missing or non-consensus component returns done immediately; otherwise the
fresh status and changed flag are computed first, and a changed status
triggers the status patch and `updateConsensusRoleInfo` — still before the
convergence checks, so its nil-consensus-spec panic fires here; then a
generation mismatch, and then a pod count differing from the desired
replicas, each end the pass with `(false, nil)` before any plan exists;
only past both checks is the plan generated and walked one step. The
`none` outcome is a panic (`composeConsensusRoleMap` on a nil consensus
spec, in the propagation loop, the status fold, or the strategy read). -/
def handleConsensusSetUpdate (sts : StatefulSetObs) (component : Option ClusterComponentDefinition)
    (old : Option ConsensusSetStatus) (componentName : String) (pods : List Pod)
    (configs : List ConfigRec) : Option HandleResult :=
  match component with
  | none => some { done := true, newStatus := none, changed := false, planned := false,
                   deletes := [], configs := configs }
  | some c =>
      if c.workloadType ≠ consensusWorkloadType then
        some { done := true, newStatus := none, changed := false, planned := false,
               deletes := [], configs := configs }
      else
        (reconcileStatusPass old c pods).bind (fun r =>
          (if r.2 then updateConsensusRoleInfo c componentName pods configs
           else some configs).bind (fun cfgs =>
            if sts.generation ≠ sts.observedGeneration then
              some { done := false, newStatus := some r.1, changed := r.2, planned := false,
                     deletes := [], configs := cfgs }
            else if pods.length ≠ sts.replicas then
              some { done := false, newStatus := some r.1, changed := r.2, planned := false,
                     deletes := [], configs := cfgs }
            else
              (generateConsensusUpdatePlan c pods).map (fun steps =>
                let w := walkSteps sts.updateRevision steps
                { done := w.1, newStatus := some r.1, changed := r.2, planned := true,
                  deletes := w.2, configs := cfgs })))

/-! Concrete sample data used to instantiate the theorems. -/

def demoSpec : ConsensusSetSpec :=
  { leader := { name := "leader", accessMode := accessModeReadWrite },
    followers := [{ name := "follower", accessMode := accessModeReadonly }],
    learner := none,
    updateStrategy := bestEffortParallelStrategy }

def demoComp : ClusterComponentDefinition :=
  { workloadType := consensusWorkloadType, consensusSpec := some demoSpec }

def demoPod0 : Pod :=
  { name := "pod-0", ordinal := 0, role := "follower", revision := "r1",
    ready := true, terminating := false }

def demoPod1 : Pod :=
  { name := "pod-1", ordinal := 1, role := "follower", revision := "r2",
    ready := true, terminating := false }

def demoPod2 : Pod :=
  { name := "pod-2", ordinal := 2, role := "leader", revision := "r2",
    ready := true, terminating := false }

def demoPods : List Pod := [demoPod0, demoPod1, demoPod2]

/-! ### C7: the walk function deletes exactly the stale, non-terminating pods -/

/-- C7: the plan walk function issues a delete exactly when the pod is not
terminating and its revision differs from the target update revision — never
for a pod already at the target revision (ready or not) or terminating — and
whenever it deletes, it classifies the pod as not yet settled. -/
theorem walkFunc_deletes_iff (target : String) (pod : Pod) :
    (walkFunc target pod).2 = (!pod.terminating && !(pod.revision == target))
    ∧ (!(walkFunc target pod).2 || (walkFunc target pod).1) = true := by
  unfold walkFunc
  by_cases ht : pod.terminating = true <;> by_cases hr : pod.revision = target <;>
    simp [ht, hr]

/-! ### C5: status reconciliation is idempotent -/

/-- C5: the fresh status a pass computes does not depend on the previous
status, depends only on the ready pods, and re-running the pass against the
status it just produced yields the same status with `changed = false`. -/
theorem statusReconciler_idempotent :
    (∀ old old' : Option ConsensusSetStatus, ∀ c pods,
      (reconcileStatusPass old c pods).map Prod.fst
        = (reconcileStatusPass old' c pods).map Prod.fst)
    ∧ (∀ c pods, computeNewStatus c pods = computeNewStatus c (pods.filter (fun q => q.ready)))
    ∧ (∀ old c pods s b, reconcileStatusPass old c pods = some (s, b) →
        reconcileStatusPass (some s) c pods = some (s, false)) := by
  refine ⟨?_, ?_, ?_⟩
  · intro old old' c pods
    unfold reconcileStatusPass
    cases computeNewStatus c pods <;> simp
  · intro c pods
    unfold computeNewStatus setConsensusSetStatusRoles
    generalize initialConsensusSetStatus = s
    induction pods generalizing s with
    | nil => rfl
    | cons q rest ih =>
        cases hq : q.ready with
        | true =>
            simp only [List.foldlM_cons, List.filter_cons_of_pos hq, hq, Bool.not_true,
              Bool.false_eq_true, if_false]
            cases setConsensusSetStatusRole s c q.role q.name with
            | none => rfl
            | some r => simpa using ih r.1
        | false =>
            have hfilter : List.filter (fun q : Pod => q.ready) (q :: rest)
                = List.filter (fun q : Pod => q.ready) rest := by
              simp [hq]
            simp only [List.foldlM_cons, hfilter, hq, Bool.not_false, if_true]
            simpa using ih s
  · intro old c pods s b h
    unfold reconcileStatusPass at h ⊢
    cases hc : computeNewStatus c pods with
    | none => rw [hc] at h; exact absurd h (by simp)
    | some nw =>
        rw [hc] at h
        simp only [Option.map_some', Option.some.injEq, Prod.mk.injEq] at h
        rw [← h.1]
        simp

/-- Witness for C5 at concrete inputs. -/
theorem statusReconciler_idempotent_witness :
    reconcileStatusPass (some (ConsensusSetStatus.mk
      { name := "leader", pod := "pod-2", accessMode := accessModeReadWrite }
      [{ name := "follower", pod := "pod-0", accessMode := accessModeReadonly },
       { name := "follower", pod := "pod-1", accessMode := accessModeReadonly }] none))
      demoComp demoPods
    = some ((ConsensusSetStatus.mk
      { name := "leader", pod := "pod-2", accessMode := accessModeReadWrite }
      [{ name := "follower", pod := "pod-0", accessMode := accessModeReadonly },
       { name := "follower", pod := "pod-1", accessMode := accessModeReadonly }] none), false) :=
  statusReconciler_idempotent.2.2 none demoComp demoPods _ true (by decide)

/-! ### Lookup lemmas for the role-priority map -/

/-- A follower access mode matching a case of the `ComposeRolePriorityMap`
switch. -/
def validFollowerMode (a : String) : Prop :=
  a = accessModeNone ∨ a = accessModeReadonly ∨ a = accessModeReadWrite

instance : DecidablePred validFollowerMode :=
  fun a => inferInstanceAs
    (Decidable (a = accessModeNone ∨ a = accessModeReadonly ∨ a = accessModeReadWrite))

/-- The priority the switch assigns to a follower of the given (valid)
access mode. -/
def followerModePriority (a : String) : Nat :=
  if a = accessModeNone then followerNonePriority
  else if a = accessModeReadonly then followerReadonlyPriority
  else followerReadWritePriority

theorem prioOf_nil (k : String) : prioOf [] k = 0 := rfl

theorem prioOf_mapInsert (m : RoleMap) (k' : String) (v : Nat) (k : String) :
    prioOf (mapInsert m k' v) k = if k' = k then v else prioOf m k := by
  unfold prioOf mapInsert
  by_cases h : k' = k
  · rw [List.find?_cons_of_pos _ (by simpa using h)]
    simp [h]
  · rw [List.find?_cons_of_neg _ (by simpa using h)]
    simp [h]

theorem prioOf_followerInsert_skip (m : RoleMap) (f : ConsensusMember) (k : String)
    (h : f.name ≠ k ∨ ¬ validFollowerMode f.accessMode) :
    prioOf (followerInsert m f) k = prioOf m k := by
  unfold followerInsert
  rcases h with h | h
  · by_cases h1 : f.accessMode = accessModeNone
    · rw [if_pos h1, prioOf_mapInsert, if_neg h]
    · rw [if_neg h1]
      by_cases h2 : f.accessMode = accessModeReadonly
      · rw [if_pos h2, prioOf_mapInsert, if_neg h]
      · rw [if_neg h2]
        by_cases h3 : f.accessMode = accessModeReadWrite
        · rw [if_pos h3, prioOf_mapInsert, if_neg h]
        · rw [if_neg h3]
  · have h1 : ¬ f.accessMode = accessModeNone := fun hh => h (Or.inl hh)
    have h2 : ¬ f.accessMode = accessModeReadonly := fun hh => h (Or.inr (Or.inl hh))
    have h3 : ¬ f.accessMode = accessModeReadWrite := fun hh => h (Or.inr (Or.inr hh))
    rw [if_neg h1, if_neg h2, if_neg h3]

theorem prioOf_followerInsert_hit (m : RoleMap) (f : ConsensusMember)
    (hv : validFollowerMode f.accessMode) :
    prioOf (followerInsert m f) f.name = followerModePriority f.accessMode := by
  unfold followerInsert followerModePriority
  rcases hv with h | h | h
  · rw [if_pos h, if_pos h, prioOf_mapInsert, if_pos rfl]
  · have h1 : ¬ f.accessMode = accessModeNone := by rw [h]; decide
    rw [if_neg h1, if_pos h, if_neg h1, if_pos h, prioOf_mapInsert, if_pos rfl]
  · have h1 : ¬ f.accessMode = accessModeNone := by rw [h]; decide
    have h2 : ¬ f.accessMode = accessModeReadonly := by rw [h]; decide
    rw [if_neg h1, if_neg h2, if_pos h, if_neg h1, if_neg h2, prioOf_mapInsert, if_pos rfl]

theorem prioOf_foldl_followerInsert_skip (fs : List ConsensusMember) (m : RoleMap) (k : String)
    (h : ∀ g ∈ fs, g.name ≠ k ∨ ¬ validFollowerMode g.accessMode) :
    prioOf (fs.foldl followerInsert m) k = prioOf m k := by
  induction fs generalizing m with
  | nil => rfl
  | cons g rest ih =>
      rw [List.foldl_cons, ih _ (fun x hx => h x (List.mem_cons_of_mem _ hx)),
        prioOf_followerInsert_skip _ _ _ (h g (List.mem_cons_self _ _))]

theorem prioOf_foldl_followerInsert_hit (fs : List ConsensusMember) (m : RoleMap)
    (f : ConsensusMember) (hf : f ∈ fs) (hv : validFollowerMode f.accessMode)
    (hd : fs.Pairwise (fun a b => a.name ≠ b.name)) :
    prioOf (fs.foldl followerInsert m) f.name = followerModePriority f.accessMode := by
  induction fs generalizing m with
  | nil => cases hf
  | cons g rest ih =>
      rw [List.foldl_cons]
      rcases List.mem_cons.mp hf with rfl | hmem
      · rw [prioOf_foldl_followerInsert_skip _ _ _
          (fun x hx => Or.inl (((List.pairwise_cons.mp hd).1 x hx).symm))]
        exact prioOf_followerInsert_hit _ _ hv
      · exact ih (followerInsert m g) hmem (List.pairwise_cons.mp hd).2

/-- All role names the spec mentions. -/
def specRoleNames (spec : ConsensusSetSpec) : List String :=
  spec.leader.name ::
    ((match spec.learner with | some l => [l.name] | none => []) ++ spec.followers.map (·.name))

/-! ### C3: the role-priority map realizes the strict total order -/

/-- C3: for a valid role specification (nonempty, mutually distinct role
names; follower access modes among None/Readonly/ReadWrite), the priority
map assigns the leader label 32, a ReadWrite follower 16, a Readonly
follower 8, a None follower 4, the learner label 2, the empty label 1 and
any absent label 0, and those values are strictly decreasing. -/
theorem composeRolePriorityMap_total_order (c : ClusterComponentDefinition)
    (spec : ConsensusSetSpec) (hs : c.consensusSpec = some spec)
    (hld : spec.leader.name ≠ "")
    (hl : ∀ l, spec.learner = some l → l.name ≠ "" ∧ l.name ≠ spec.leader.name)
    (hf : ∀ f ∈ spec.followers, f.name ≠ "" ∧ f.name ≠ spec.leader.name ∧
          (∀ l, spec.learner = some l → f.name ≠ l.name) ∧ validFollowerMode f.accessMode)
    (hfd : spec.followers.Pairwise (fun a b => a.name ≠ b.name)) :
    prioOf (ComposeRolePriorityMap c) spec.leader.name = leaderPriority
    ∧ (∀ l, spec.learner = some l →
        prioOf (ComposeRolePriorityMap c) l.name = learnerPriority)
    ∧ (∀ f ∈ spec.followers,
        prioOf (ComposeRolePriorityMap c) f.name = followerModePriority f.accessMode)
    ∧ prioOf (ComposeRolePriorityMap c) "" = emptyPriority
    ∧ (∀ r, r ∉ specRoleNames spec → r ≠ "" → prioOf (ComposeRolePriorityMap c) r = 0)
    ∧ (leaderPriority > followerReadWritePriority
       ∧ followerReadWritePriority > followerReadonlyPriority
       ∧ followerReadonlyPriority > followerNonePriority
       ∧ followerNonePriority > learnerPriority
       ∧ learnerPriority > emptyPriority ∧ emptyPriority > 0) := by
  have hespec : effectiveConsensusSpec c = spec := by
    unfold effectiveConsensusSpec
    rw [hs]
  unfold ComposeRolePriorityMap
  rw [hespec]
  refine ⟨?_, ?_, ?_, ?_, ?_, by decide⟩
  · rw [prioOf_foldl_followerInsert_skip _ _ _
      (fun g hg => Or.inl (hf g hg).2.1)]
    cases hlc : spec.learner with
    | none => rw [prioOf_mapInsert, if_pos rfl]
    | some l =>
        rw [prioOf_mapInsert, if_neg (hl l hlc).2, prioOf_mapInsert, if_pos rfl]
  · intro l hlc
    rw [prioOf_foldl_followerInsert_skip _ _ _
      (fun g hg => Or.inl ((hf g hg).2.2.1 l hlc)), hlc, prioOf_mapInsert, if_pos rfl]
  · intro f hfm
    exact prioOf_foldl_followerInsert_hit _ _ f hfm (hf f hfm).2.2.2 hfd
  · rw [prioOf_foldl_followerInsert_skip _ _ _
      (fun g hg => Or.inl (hf g hg).1)]
    cases hlc : spec.learner with
    | none =>
        rw [prioOf_mapInsert, if_neg hld, prioOf_mapInsert, if_pos rfl]
    | some l =>
        rw [prioOf_mapInsert, if_neg (hl l hlc).1, prioOf_mapInsert, if_neg hld,
          prioOf_mapInsert, if_pos rfl]
  · intro r hr hre
    have hrl : spec.leader.name ≠ r := by
      intro hh
      exact hr (hh ▸ List.mem_cons_self _ _)
    have hrf : ∀ g ∈ spec.followers, g.name ≠ r := by
      intro g hg hh
      refine hr (List.mem_cons_of_mem _ (List.mem_append_right _ ?_))
      exact hh ▸ List.mem_map_of_mem (·.name) hg
    rw [prioOf_foldl_followerInsert_skip _ _ _ (fun g hg => Or.inl (hrf g hg))]
    cases hlc : spec.learner with
    | none =>
        rw [prioOf_mapInsert, if_neg hrl, prioOf_mapInsert, if_neg (Ne.symm hre), prioOf_nil]
    | some l =>
        have hrln : l.name ≠ r := by
          intro hh
          refine hr (List.mem_cons_of_mem _ (List.mem_append_left _ ?_))
          rw [hlc]
          exact hh ▸ List.mem_singleton_self _
        rw [prioOf_mapInsert, if_neg hrln, prioOf_mapInsert, if_neg hrl, prioOf_mapInsert,
          if_neg (Ne.symm hre), prioOf_nil]

/-- Witness for C3 at a concrete component definition. -/
theorem composeRolePriorityMap_total_order_witness :
    prioOf (ComposeRolePriorityMap demoComp) "leader" = leaderPriority
    ∧ prioOf (ComposeRolePriorityMap demoComp) "" = emptyPriority :=
  ⟨(composeRolePriorityMap_total_order demoComp demoSpec rfl (by decide)
      (by intro l h; cases h) (by decide) (by decide)).1,
   (composeRolePriorityMap_total_order demoComp demoSpec rfl (by decide)
      (by intro l h; cases h) (by decide) (by decide)).2.2.2.1⟩

/-! ### C8: classification on a missing consensus spec / missing leader name -/

theorem extLookup_putConsensusMemberExt_skip (m : RoleExtMap) (n r a k : String)
    (h : n ≠ k) :
    extLookup (putConsensusMemberExt m n r a) k = extLookup m k := by
  unfold putConsensusMemberExt
  split
  · rfl
  · unfold extLookup
    rw [List.find?_cons_of_neg _ (by simpa using h)]

theorem extLookup_putConsensusMemberExt_empty (m : RoleExtMap) (n r a : String) :
    extLookup (putConsensusMemberExt m n r a) "" = extLookup m "" := by
  by_cases hn : n = ""
  · unfold putConsensusMemberExt
    rw [if_pos (Or.inl hn)]
  · exact extLookup_putConsensusMemberExt_skip _ _ _ _ _ hn

theorem extLookup_foldl_put_empty (fs : List ConsensusMember) (m : RoleExtMap) :
    extLookup
      (fs.foldl (fun acc f => putConsensusMemberExt acc f.name roleFollower f.accessMode) m) ""
      = extLookup m "" := by
  induction fs generalizing m with
  | nil => rfl
  | cons g rest ih => rw [List.foldl_cons, ih, extLookup_putConsensusMemberExt_empty]

/-- The empty role label never acquires an entry in the role-label → member
map. -/
theorem extLookup_compose_empty (spec : ConsensusSetSpec) :
    extLookup (composeConsensusRoleMapSpec spec) "" = none := by
  unfold composeConsensusRoleMapSpec
  cases spec.learner with
  | none =>
      rw [extLookup_foldl_put_empty, extLookup_putConsensusMemberExt_empty]
      rfl
  | some l =>
      rw [extLookup_putConsensusMemberExt_empty, extLookup_foldl_put_empty,
        extLookup_putConsensusMemberExt_empty]
      rfl

def nilSpecComp : ClusterComponentDefinition :=
  { workloadType := consensusWorkloadType, consensusSpec := none }

/-- C8 counterexample: on a component whose consensus specification is
absent, `ComposeRolePriorityMap` synthesizes the default leader, but
`composeConsensusRoleMap` dereferences the nil specification (a panic, the
`none` outcome): the claim that both classifiers always succeed fails. -/
theorem roleClassification_nil_spec_counterexample :
    composeConsensusRoleMap nilSpecComp = none
    ∧ prioOf (ComposeRolePriorityMap nilSpecComp) DefaultLeader.name = leaderPriority :=
  ⟨rfl, by decide⟩

/-- C8 (amended): with a present consensus specification both classifiers
succeed; with an absent one only the priority map does, synthesizing the
default leader at leader priority, while the role-map composition panics;
and a present specification with an empty leader name synthesizes nothing —
the empty label itself receives leader priority and the role map holds no
entry for it. -/
theorem roleClassification_amended (c : ClusterComponentDefinition) :
    (∀ spec, c.consensusSpec = some spec →
       composeConsensusRoleMap c = some (composeConsensusRoleMapSpec spec))
    ∧ (c.consensusSpec = none →
        composeConsensusRoleMap c = none
        ∧ prioOf (ComposeRolePriorityMap c) DefaultLeader.name = leaderPriority)
    ∧ (∀ spec, c.consensusSpec = some spec → spec.leader.name = "" →
        (∀ f ∈ spec.followers, f.name ≠ "") →
        (∀ l, spec.learner = some l → l.name ≠ "") →
        prioOf (ComposeRolePriorityMap c) "" = leaderPriority
        ∧ extLookup (composeConsensusRoleMapSpec spec) "" = none) := by
  refine ⟨?_, ?_, ?_⟩
  · intro spec hs
    unfold composeConsensusRoleMap
    rw [hs]
    rfl
  · intro hn
    constructor
    · unfold composeConsensusRoleMap
      rw [hn]
      rfl
    · unfold ComposeRolePriorityMap effectiveConsensusSpec
      rw [hn]
      decide
  · intro spec hs hld hfn hln
    have hespec : effectiveConsensusSpec c = spec := by
      unfold effectiveConsensusSpec
      rw [hs]
    refine ⟨?_, extLookup_compose_empty spec⟩
    unfold ComposeRolePriorityMap
    rw [hespec, prioOf_foldl_followerInsert_skip _ _ _ (fun g hg => Or.inl (hfn g hg))]
    cases hlc : spec.learner with
    | none => rw [prioOf_mapInsert, if_pos hld]
    | some l =>
        rw [prioOf_mapInsert, if_neg (hln l hlc), prioOf_mapInsert, if_pos hld]

/-- Witness for C8's amended theorem at a concrete component. -/
theorem roleClassification_amended_witness :
    composeConsensusRoleMap nilSpecComp = none
    ∧ prioOf (ComposeRolePriorityMap nilSpecComp) DefaultLeader.name = leaderPriority :=
  (roleClassification_amended nilSpecComp).2.1 rfl

/-! ### C10: empty-string entries, unrecognized access modes -/

/-- Go `_, ok := roleMap[k]` on the role-label → member map. -/
def hasExtKey (m : RoleExtMap) (k : String) : Bool :=
  (m.find? (fun e => e.1 == k)).isSome

theorem hasExtKey_put_self (m : RoleExtMap) (n r a : String)
    (hn : n ≠ "") (hr : r ≠ "") (ha : a ≠ "") :
    hasExtKey (putConsensusMemberExt m n r a) n = true := by
  unfold putConsensusMemberExt hasExtKey
  rw [if_neg (by simp [hn, hr, ha]), List.find?_cons_of_pos _ (by simp)]
  rfl

theorem hasExtKey_put_mono (m : RoleExtMap) (n r a k : String)
    (h : hasExtKey m k = true) :
    hasExtKey (putConsensusMemberExt m n r a) k = true := by
  unfold hasExtKey at h
  unfold putConsensusMemberExt hasExtKey
  split
  · exact h
  · by_cases hk : n = k
    · rw [List.find?_cons_of_pos _ (by simpa using hk)]
      rfl
    · rw [List.find?_cons_of_neg _ (by simpa using hk)]
      exact h

theorem hasExtKey_foldl_put_mono (fs : List ConsensusMember) (m : RoleExtMap) (k : String)
    (h : hasExtKey m k = true) :
    hasExtKey
      (fs.foldl (fun acc f => putConsensusMemberExt acc f.name roleFollower f.accessMode) m) k
      = true := by
  induction fs generalizing m with
  | nil => exact h
  | cons g rest ih =>
      rw [List.foldl_cons]
      exact ih _ (hasExtKey_put_mono _ _ _ _ _ h)

theorem hasExtKey_foldl_put_mem (fs : List ConsensusMember) (m : RoleExtMap)
    (f : ConsensusMember) (hf : f ∈ fs) (hn : f.name ≠ "") (ha : f.accessMode ≠ "") :
    hasExtKey
      (fs.foldl (fun acc f => putConsensusMemberExt acc f.name roleFollower f.accessMode) m)
      f.name = true := by
  induction fs generalizing m with
  | nil => cases hf
  | cons g rest ih =>
      rw [List.foldl_cons]
      rcases List.mem_cons.mp hf with rfl | hmem
      · exact hasExtKey_foldl_put_mono _ _ _ (hasExtKey_put_self _ _ _ _ hn (by decide) ha)
      · exact ih (putConsensusMemberExt m g.name roleFollower g.accessMode) hmem

def weirdSpec : ConsensusSetSpec :=
  { leader := { name := "wleader", accessMode := accessModeReadWrite },
    followers := [{ name := "bad", accessMode := "Weird" }],
    learner := none, updateStrategy := serialStrategy }

def weirdComp : ClusterComponentDefinition :=
  { workloadType := consensusWorkloadType, consensusSpec := some weirdSpec }

/-- C10 counterexample: a follower entry with the unrecognized (nonempty)
access mode "Weird" receives priority 0, yet its label is not skipped for
status purposes — the status update installs the pod as a follower and
reports a change, contradicting "treated as Unknown — skipped for status
purposes". -/
theorem unknownAccessMode_status_counterexample :
    prioOf (ComposeRolePriorityMap weirdComp) "bad" = 0
    ∧ setConsensusSetStatusRole initialConsensusSetStatus weirdComp "bad" "pod-0"
        = some ({ leader := { name := "", pod := componentStatusDefaultPodName,
                              accessMode := accessModeNone },
                  followers := [{ name := "bad", pod := "pod-0", accessMode := "Weird" }],
                  learner := none }, true) := by
  constructor
  · decide
  · decide

/-- C10 (amended): entries with an empty name, role, or access mode are
omitted from the role-label → member map; a follower whose access mode is
none of None/Readonly/ReadWrite gets no priority-map entry (priority 0); a
label absent from the role-label → member map is skipped by the status
update; but a follower with a nonempty name and a nonempty unrecognized
access mode is still inserted into the role-label → member map, so its pods
are processed for status. -/
theorem memberExtInsertion_amended :
    (∀ m n r a, (n = "" ∨ r = "" ∨ a = "") → putConsensusMemberExt m n r a = m)
    ∧ (∀ c spec f, c.consensusSpec = some spec → f ∈ spec.followers →
        f.name ≠ "" → f.name ≠ spec.leader.name →
        (∀ l, spec.learner = some l → f.name ≠ l.name) →
        (∀ g ∈ spec.followers, g.name = f.name → ¬ validFollowerMode g.accessMode) →
        prioOf (ComposeRolePriorityMap c) f.name = 0)
    ∧ (∀ s c role podName spec, c.consensusSpec = some spec →
        extLookup (composeConsensusRoleMapSpec spec) role = none →
        setConsensusSetStatusRole s c role podName = some (s, false))
    ∧ (∀ spec f, f ∈ spec.followers → f.name ≠ "" → f.accessMode ≠ "" →
        hasExtKey (composeConsensusRoleMapSpec spec) f.name = true) := by
  refine ⟨?_, ?_, ?_, ?_⟩
  · intro m n r a h
    unfold putConsensusMemberExt
    rw [if_pos h]
  · intro c spec f hs hf hne hnl hnlearn hinv
    have hespec : effectiveConsensusSpec c = spec := by
      unfold effectiveConsensusSpec
      rw [hs]
    unfold ComposeRolePriorityMap
    rw [hespec, prioOf_foldl_followerInsert_skip _ _ _ ?hskip]
    case hskip =>
      intro g hg
      by_cases hgn : g.name = f.name
      · exact Or.inr (hinv g hg hgn)
      · exact Or.inl hgn
    cases hlc : spec.learner with
    | none => rw [prioOf_mapInsert, if_neg (Ne.symm hnl), prioOf_mapInsert,
        if_neg (Ne.symm hne), prioOf_nil]
    | some l =>
        rw [prioOf_mapInsert, if_neg (Ne.symm (hnlearn l hlc)), prioOf_mapInsert,
          if_neg (Ne.symm hnl), prioOf_mapInsert, if_neg (Ne.symm hne), prioOf_nil]
  · intro s c role podName spec hs hlook
    unfold setConsensusSetStatusRole composeConsensusRoleMap
    rw [hs]
    simp only [Option.map_some']
    rw [hlook]
  · intro spec f hf hn ha
    unfold composeConsensusRoleMapSpec
    cases spec.learner with
    | none => exact hasExtKey_foldl_put_mem _ _ f hf hn ha
    | some l => exact hasExtKey_put_mono _ _ _ _ _ (hasExtKey_foldl_put_mem _ _ f hf hn ha)

/-- Witness for C10's amended theorem at concrete inputs. -/
theorem memberExtInsertion_amended_witness :
    putConsensusMemberExt [] "" roleLeader accessModeReadWrite = []
    ∧ hasExtKey (composeConsensusRoleMapSpec weirdSpec) "bad" = true :=
  ⟨memberExtInsertion_amended.1 [] "" roleLeader accessModeReadWrite (Or.inl rfl),
   memberExtInsertion_amended.2.2.2 weirdSpec { name := "bad", accessMode := "Weird" }
     (by decide) (by decide) (by decide)⟩

/-! ### C4: status slot invariants -/

theorem charListLe_cons_iff (x y : Char) (xs ys : List Char) :
    charListLe (x :: xs) (y :: ys) = true
      ↔ (x.toNat < y.toNat ∨ (x.toNat = y.toNat ∧ charListLe xs ys = true)) := by
  simp only [charListLe]
  by_cases h1 : x.toNat < y.toNat
  · simp [h1]
  · by_cases h2 : y.toNat < x.toNat
    · simp only [if_neg h1, if_pos h2]
      constructor
      · intro h
        cases h
      · intro h
        rcases h with h | h
        · exact absurd h h1
        · omega
    · have hxy : x.toNat = y.toNat := by omega
      simp [h1, h2, hxy]

theorem charListLe_total : ∀ a b : List Char, charListLe a b = true ∨ charListLe b a = true := by
  intro a
  induction a with
  | nil => intro b; left; rfl
  | cons x xs ih =>
      intro b
      cases b with
      | nil => right; rfl
      | cons y ys =>
          rw [charListLe_cons_iff, charListLe_cons_iff]
          by_cases h1 : x.toNat < y.toNat
          · left; exact Or.inl h1
          · by_cases h2 : y.toNat < x.toNat
            · right; exact Or.inl h2
            · have hxy : x.toNat = y.toNat := by omega
              rcases ih ys with h | h
              · left; exact Or.inr ⟨hxy, h⟩
              · right; exact Or.inr ⟨hxy.symm, h⟩

theorem charListLe_trans :
    ∀ a b c : List Char, charListLe a b = true → charListLe b c = true →
      charListLe a c = true := by
  intro a
  induction a with
  | nil => intro b c _ _; rfl
  | cons x xs ih =>
      intro b c hab hbc
      cases b with
      | nil => cases hab
      | cons y ys =>
          cases c with
          | nil => cases hbc
          | cons z zs =>
              rw [charListLe_cons_iff] at hab hbc ⊢
              rcases hab with hab | ⟨hab, hab'⟩
              · rcases hbc with hbc | ⟨hbc, _⟩
                · exact Or.inl (by omega)
                · exact Or.inl (by omega)
              · rcases hbc with hbc | ⟨hbc, hbc'⟩
                · exact Or.inl (by omega)
                · exact Or.inr ⟨by omega, ih ys zs hab' hbc'⟩

instance : IsTotal ConsensusMemberStatus followerPodLe :=
  ⟨fun a b => charListLe_total a.pod.data b.pod.data⟩

instance : IsTrans ConsensusMemberStatus followerPodLe :=
  ⟨fun a b c => charListLe_trans a.pod.data b.pod.data c.pod.data⟩

/-- How many of the status slots name the pod `n`. -/
def learnerCount (lo : Option ConsensusMemberStatus) (n : String) : Nat :=
  match lo with
  | some l => if l.pod = n then 1 else 0
  | none => 0

def slotCount (s : ConsensusSetStatus) (n : String) : Nat :=
  (if s.leader.pod = n then 1 else 0) + s.followers.countP (fun f => f.pod == n)
    + learnerCount s.learner n

/-- The invariant of `ConsensusSetStatus`: every real pod name (the sentinel
marking an empty leader slot aside) occupies at most one slot, and the
follower list is duplicate-free and sorted by pod name. -/
def StatusInvariant (s : ConsensusSetStatus) : Prop :=
  (∀ n, n ≠ componentStatusDefaultPodName → slotCount s n ≤ 1)
  ∧ s.followers.Pairwise (fun a b => a.pod ≠ b.pod)
  ∧ s.followers.Pairwise followerPodLe

/-- The three fields of a reset status, in closed form. -/
theorem resetConsensusSetStatusRole_eq (s : ConsensusSetStatus) (podName : String) :
    resetConsensusSetStatusRole s podName =
      { leader := if s.leader.pod = podName then
          { name := "", pod := componentStatusDefaultPodName, accessMode := accessModeNone }
        else s.leader,
        followers := s.followers.filter (fun f => !(f.pod == podName)),
        learner := match s.learner with
          | some l => if l.pod = podName then none else some l
          | none => none } := by
  unfold resetConsensusSetStatusRole
  by_cases h1 : s.leader.pod = podName <;> cases hl : s.learner with
  | _ => simp only [h1, if_true, if_false, hl] <;> (first | rfl | split <;> rfl)

theorem reset_leader_ne (s : ConsensusSetStatus) (podName : String)
    (hpn : podName ≠ componentStatusDefaultPodName) :
    (resetConsensusSetStatusRole s podName).leader.pod ≠ podName := by
  rw [resetConsensusSetStatusRole_eq]
  by_cases h1 : s.leader.pod = podName
  · simp only [if_pos h1]
    exact fun hh => hpn hh.symm
  · simp only [if_neg h1]
    exact h1

theorem reset_followers_countP_self (s : ConsensusSetStatus) (podName : String) :
    (resetConsensusSetStatusRole s podName).followers.countP (fun f => f.pod == podName) = 0 := by
  rw [resetConsensusSetStatusRole_eq]
  refine List.countP_eq_zero.mpr ?_
  intro a ha
  have := (List.mem_filter.mp ha).2
  simpa using this

theorem reset_learnerCount_self (s : ConsensusSetStatus) (podName : String) :
    learnerCount (resetConsensusSetStatusRole s podName).learner podName = 0 := by
  rw [resetConsensusSetStatusRole_eq]
  cases hl : s.learner with
  | none => rfl
  | some l =>
      by_cases h : l.pod = podName
      · simp [learnerCount, h]
      · simp [learnerCount, h]

theorem reset_slotCount_le (s : ConsensusSetStatus) (podName n : String)
    (hn : n ≠ componentStatusDefaultPodName) :
    slotCount (resetConsensusSetStatusRole s podName) n ≤ slotCount s n := by
  rw [resetConsensusSetStatusRole_eq]
  unfold slotCount
  refine Nat.add_le_add (Nat.add_le_add ?_ ?_) ?_
  · by_cases h1 : s.leader.pod = podName
    · simp only [if_pos h1]
      rw [if_neg (show ¬(componentStatusDefaultPodName = n) from fun hh => hn hh.symm)]
      omega
    · simp [if_neg h1]
  · exact List.Sublist.countP_le _ (List.filter_sublist _)
  · cases hl : s.learner with
    | none => exact Nat.le_refl _
    | some l =>
        by_cases h : l.pod = podName
        · simp [learnerCount, h]
        · simp [learnerCount, h]

theorem reset_invariant (s : ConsensusSetStatus) (podName : String)
    (h : StatusInvariant s) : StatusInvariant (resetConsensusSetStatusRole s podName) := by
  refine ⟨?_, ?_, ?_⟩
  · intro n hn
    exact Nat.le_trans (reset_slotCount_le s podName n hn) (h.1 n hn)
  · rw [resetConsensusSetStatusRole_eq]
    exact List.Pairwise.sublist (List.filter_sublist _) h.2.1
  · rw [resetConsensusSetStatusRole_eq]
    exact List.Pairwise.sublist (List.filter_sublist _) h.2.2

theorem setLeader_invariant (r : ConsensusSetStatus) (m : ConsensusMemberExt)
    (hInv : StatusInvariant r)
    (hfol : r.followers.countP (fun f => f.pod == m.podName) = 0)
    (hlearn : learnerCount r.learner m.podName = 0) :
    StatusInvariant (setConsensusSetStatusLeader r m).1 := by
  unfold setConsensusSetStatusLeader
  by_cases h1 : r.leader.pod = m.podName
  · rw [if_pos h1]
    exact hInv
  · rw [if_neg h1]
    refine ⟨?_, hInv.2.1, hInv.2.2⟩
    intro n hn
    have hr := hInv.1 n hn
    unfold slotCount at hr ⊢
    simp only
    by_cases h2 : m.podName = n
    · rw [if_pos h2, ← h2, hfol, hlearn]
    · rw [if_neg h2]
      by_cases h3 : r.leader.pod = n
      · rw [if_pos h3] at hr
        omega
      · rw [if_neg h3] at hr
        omega

theorem setFollower_invariant (r : ConsensusSetStatus) (m : ConsensusMemberExt)
    (hInv : StatusInvariant r) (hleader : r.leader.pod ≠ m.podName)
    (hfol : r.followers.countP (fun f => f.pod == m.podName) = 0)
    (hlearn : learnerCount r.learner m.podName = 0) :
    StatusInvariant (setConsensusSetStatusFollower r m).1 := by
  unfold setConsensusSetStatusFollower
  by_cases h1 : r.followers.any (fun f => f.pod == m.podName)
  · rw [if_pos h1]
    exact hInv
  · rw [if_neg h1]
    have hperm : (List.insertionSort followerPodLe
        (r.followers ++ [{ name := m.name, pod := m.podName, accessMode := m.accessMode }])).Perm
        (r.followers ++ [{ name := m.name, pod := m.podName, accessMode := m.accessMode }]) :=
      List.perm_insertionSort _ _
    have hnotmem : ∀ a ∈ r.followers, a.pod ≠ m.podName := by
      intro a ha
      have := List.countP_eq_zero.mp hfol a ha
      simpa using this
    refine ⟨?_, ?_, ?_⟩
    · intro n hn
      have hr := hInv.1 n hn
      unfold slotCount at hr ⊢
      simp only
      rw [hperm.countP_eq, List.countP_append, List.countP_cons, List.countP_nil]
      simp only
      by_cases h2 : m.podName = n
      · rw [if_neg (show ¬(r.leader.pod = n) from fun hh => hleader (hh.trans h2.symm)),
          if_pos (show ((m.podName == n) = true) from by simpa using h2), ← h2, hfol, hlearn]
      · rw [if_neg (show ¬((m.podName == n) = true) from by simpa using h2)]
        by_cases h3 : r.leader.pod = n
        · rw [if_pos h3] at hr ⊢
          omega
        · rw [if_neg h3] at hr ⊢
          omega
    · rw [(hperm.pairwise_iff (fun h => h.symm))]
      rw [List.pairwise_append]
      refine ⟨hInv.2.1, List.pairwise_singleton _ _, ?_⟩
      intro a ha b hb
      rw [List.mem_singleton.mp hb]
      exact hnotmem a ha
    · exact List.sorted_insertionSort followerPodLe _

theorem setLearner_invariant (r : ConsensusSetStatus) (m : ConsensusMemberExt)
    (hInv : StatusInvariant r) (hleader : r.leader.pod ≠ m.podName)
    (hfol : r.followers.countP (fun f => f.pod == m.podName) = 0) :
    StatusInvariant (setConsensusSetStatusLearner r m).1 := by
  unfold setConsensusSetStatusLearner
  cases hl : r.learner with
  | some l =>
      simp only
      by_cases h1 : l.pod = m.podName
      · rw [if_pos h1]
        refine ⟨?_, hInv.2.1, hInv.2.2⟩
        intro n hn
        have hr := hInv.1 n hn
        unfold slotCount at hr ⊢
        rw [hl] at hr
        exact hr
      · rw [if_neg h1]
        refine ⟨?_, hInv.2.1, hInv.2.2⟩
        intro n hn
        have hr := hInv.1 n hn
        unfold slotCount at hr ⊢
        rw [hl] at hr
        simp only [learnerCount] at hr ⊢
        by_cases h2 : m.podName = n
        · rw [if_pos h2, if_neg (fun hh => hleader (hh.trans h2.symm)), ← h2, hfol]
        · rw [if_neg h2]
          by_cases h3 : l.pod = n
          · rw [if_pos h3] at hr
            omega
          · rw [if_neg h3] at hr
            omega
  | none =>
      simp only
      by_cases h1 : ("" : String) = m.podName
      · rw [if_pos h1]
        refine ⟨?_, hInv.2.1, hInv.2.2⟩
        intro n hn
        have hr := hInv.1 n hn
        unfold slotCount at hr ⊢
        rw [hl] at hr
        simp only [learnerCount] at hr ⊢
        by_cases h2 : ("" : String) = n
        · rw [if_pos h2, if_neg (fun hh => hleader (hh.trans (h2.symm.trans h1))),
            ← h2, h1, hfol]
        · rw [if_neg h2]
          omega
      · rw [if_neg h1]
        refine ⟨?_, hInv.2.1, hInv.2.2⟩
        intro n hn
        have hr := hInv.1 n hn
        unfold slotCount at hr ⊢
        rw [hl] at hr
        simp only [learnerCount] at hr ⊢
        by_cases h2 : m.podName = n
        · rw [if_pos h2, if_neg (fun hh => hleader (hh.trans h2.symm)), ← h2, hfol]
        · rw [if_neg h2]
          omega

theorem setRole_preserves_invariant (c : ClusterComponentDefinition) (s : ConsensusSetStatus)
    (role podName : String) (s' : ConsensusSetStatus) (b : Bool)
    (hInv : StatusInvariant s) (hpn : podName ≠ componentStatusDefaultPodName)
    (h : setConsensusSetStatusRole s c role podName = some (s', b)) :
    StatusInvariant s' := by
  unfold setConsensusSetStatusRole at h
  cases hc : composeConsensusRoleMap c with
  | none =>
      rw [hc] at h
      cases h
  | some roleMap =>
      rw [hc] at h
      simp only [Option.map_some', Option.some.injEq] at h
      cases hlook : extLookup roleMap role with
      | none =>
          rw [hlook] at h
          injection h with h1 h2
          exact h1 ▸ hInv
      | some ext =>
          rw [hlook] at h
          dsimp only at h
          have hInvR := reset_invariant s podName hInv
          have hfol := reset_followers_countP_self s podName
          have hlearn := reset_learnerCount_self s podName
          have hlead := reset_leader_ne s podName hpn
          by_cases h1 : ext.consensusRole = roleLeader
          · rw [if_pos h1] at h
            have hres : (setConsensusSetStatusLeader (resetConsensusSetStatusRole s podName)
                { ext with podName := podName }).1 = s' := by rw [h]
            exact hres ▸ setLeader_invariant _ _ hInvR hfol hlearn
          · rw [if_neg h1] at h
            by_cases h2 : ext.consensusRole = roleFollower
            · rw [if_pos h2] at h
              have hres : (setConsensusSetStatusFollower (resetConsensusSetStatusRole s podName)
                  { ext with podName := podName }).1 = s' := by rw [h]
              exact hres ▸ setFollower_invariant _ _ hInvR hlead hfol hlearn
            · rw [if_neg h2] at h
              by_cases h3 : ext.consensusRole = roleLearner
              · rw [if_pos h3] at h
                have hres : (setConsensusSetStatusLearner (resetConsensusSetStatusRole s podName)
                    { ext with podName := podName }).1 = s' := by rw [h]
                exact hres ▸ setLearner_invariant _ _ hInvR hlead hfol
              · rw [if_neg h3] at h
                injection h with h4 h5
                exact h4 ▸ hInvR

theorem setRole_leader_moves (c : ClusterComponentDefinition) (s : ConsensusSetStatus)
    (role podName : String) (s' : ConsensusSetStatus) (b : Bool)
    (roleMap : RoleExtMap) (ext : ConsensusMemberExt)
    (hpn : podName ≠ componentStatusDefaultPodName)
    (hc : composeConsensusRoleMap c = some roleMap)
    (hlook : extLookup roleMap role = some ext)
    (hrole : ext.consensusRole = roleLeader)
    (h : setConsensusSetStatusRole s c role podName = some (s', b)) :
    s'.leader.pod = podName ∧ ∀ f ∈ s'.followers, f.pod ≠ podName := by
  unfold setConsensusSetStatusRole at h
  rw [hc] at h
  simp only [Option.map_some', Option.some.injEq] at h
  rw [hlook] at h
  dsimp only at h
  rw [if_pos hrole] at h
  unfold setConsensusSetStatusLeader at h
  rw [if_neg (reset_leader_ne s podName hpn)] at h
  injection h with h1 h2
  constructor
  · rw [← h1]
  · intro f hf
    rw [← h1] at hf
    simp only at hf
    rw [resetConsensusSetStatusRole_eq] at hf
    simp only [List.mem_filter] at hf
    simpa using hf.2

theorem setRoles_preserves_invariant (c : ClusterComponentDefinition) (s : ConsensusSetStatus)
    (pods : List Pod) (s₂ : ConsensusSetStatus)
    (hInv : StatusInvariant s)
    (hnames : ∀ q ∈ pods, q.name ≠ componentStatusDefaultPodName)
    (h : setConsensusSetStatusRoles s c pods = some s₂) :
    StatusInvariant s₂ := by
  induction pods generalizing s with
  | nil =>
      unfold setConsensusSetStatusRoles at h
      injection h with h1
      exact h1 ▸ hInv
  | cons q rest ih =>
      unfold setConsensusSetStatusRoles at h
      rw [List.foldlM_cons] at h
      cases hq : q.ready with
      | false =>
          rw [hq] at h
          simp only [Bool.not_false, if_true] at h
          exact ih s hInv (fun x hx => hnames x (List.mem_cons_of_mem _ hx)) h
      | true =>
          rw [hq] at h
          simp only [Bool.not_true, Bool.false_eq_true, if_false] at h
          cases hstep : setConsensusSetStatusRole s c q.role q.name with
          | none =>
              rw [hstep] at h
              cases h
          | some r =>
              rw [hstep] at h
              simp only [Option.map_some'] at h
              have hInvR : StatusInvariant r.1 :=
                setRole_preserves_invariant c s q.role q.name r.1 r.2 hInv
                  (hnames q (List.mem_cons_self _ _)) (by rw [hstep])
              exact ih r.1 hInvR (fun x hx => hnames x (List.mem_cons_of_mem _ hx)) h

/-! ### C4: the claim -/

/-- C4: under the status-role update for a ready pod (and hence under a full
pass over the ready pods), the consensus status keeps its invariant — each
real pod name occupies at most one slot among Leader, Followers and Learner,
and the follower list is duplicate-free and sorted by pod name; moreover a
pod observed with a leader-role label ends with the Leader slot and is
absent from Followers (in particular, a pod previously recorded as follower
is removed from Followers and installed as Leader in the same step). -/
theorem consensusStatus_invariant :
    (∀ c s role podName s' b,
       StatusInvariant s → podName ≠ componentStatusDefaultPodName →
       setConsensusSetStatusRole s c role podName = some (s', b) →
       StatusInvariant s')
    ∧ (∀ c s role podName s' b roleMap ext,
       podName ≠ componentStatusDefaultPodName →
       composeConsensusRoleMap c = some roleMap →
       extLookup roleMap role = some ext → ext.consensusRole = roleLeader →
       (∃ f ∈ s.followers, f.pod = podName) →
       setConsensusSetStatusRole s c role podName = some (s', b) →
       s'.leader.pod = podName ∧ ∀ f ∈ s'.followers, f.pod ≠ podName)
    ∧ (∀ c s pods s₂,
       StatusInvariant s → (∀ q ∈ pods, q.name ≠ componentStatusDefaultPodName) →
       setConsensusSetStatusRoles s c pods = some s₂ →
       StatusInvariant s₂) :=
  ⟨fun c s role podName s' b hInv hpn h =>
      setRole_preserves_invariant c s role podName s' b hInv hpn h,
   fun c s role podName s' b roleMap ext hpn hc hlook hrole _ h =>
      setRole_leader_moves c s role podName s' b roleMap ext hpn hc hlook hrole h,
   fun c s pods s₂ hInv hnames h =>
      setRoles_preserves_invariant c s pods s₂ hInv hnames h⟩

/-- The fresh initial status satisfies the invariant. -/
theorem initialConsensusSetStatus_invariant : StatusInvariant initialConsensusSetStatus := by
  refine ⟨?_, List.Pairwise.nil, List.Pairwise.nil⟩
  intro n hn
  unfold slotCount initialConsensusSetStatus learnerCount
  simp only [List.countP_nil]
  rw [if_neg (fun hh => hn hh.symm)]
  decide

/-- Witness for C4 at concrete inputs: a pod recorded as follower is
re-observed as leader. -/
theorem consensusStatus_invariant_witness :
    StatusInvariant (ConsensusSetStatus.mk
      { name := "", pod := componentStatusDefaultPodName, accessMode := accessModeNone }
      [{ name := "follower", pod := "pod-0", accessMode := accessModeReadonly }] none)
    ∧ ((ConsensusSetStatus.mk
        { name := "leader", pod := "pod-0", accessMode := accessModeReadWrite }
        [] none).leader.pod = "pod-0"
       ∧ ∀ f ∈ (ConsensusSetStatus.mk
          { name := "leader", pod := "pod-0", accessMode := accessModeReadWrite }
          [] none).followers, f.pod ≠ "pod-0") := by
  constructor
  · refine ⟨?_, ?_, ?_⟩
    · intro n hn
      unfold slotCount learnerCount
      simp only [List.countP_cons, List.countP_nil]
      by_cases h0 : n = "pod-0"
      · subst h0
        rw [if_neg (show ¬(componentStatusDefaultPodName = "pod-0") from by decide)]
        decide
      · rw [if_neg (fun hh => hn hh.symm),
          if_neg (show ¬(("pod-0" == n) = true) from by simpa using fun hh => h0 hh.symm)]
        decide
    · exact List.pairwise_singleton _ _
    · exact List.pairwise_singleton _ _
  · exact consensusStatus_invariant.2.1 demoComp
      (ConsensusSetStatus.mk
        { name := "", pod := componentStatusDefaultPodName, accessMode := accessModeNone }
        [{ name := "follower", pod := "pod-0", accessMode := accessModeReadonly }] none)
      "leader" "pod-0" _ true (composeConsensusRoleMapSpec demoSpec)
      { name := "leader", consensusRole := roleLeader,
        accessMode := accessModeReadWrite, podName := "" }
      (by decide) rfl (by decide) rfl
      ⟨{ name := "follower", pod := "pod-0", accessMode := accessModeReadonly },
        ⟨by decide, rfl⟩⟩ (by decide)

/-! ### Plan-tree and sorted-prefix lemmas for C1 and C2 -/

theorem flatten_batchesOf_buildSteps :
    ∀ bs : List (List Pod), (batchesOf (buildSteps bs)).flatten = bs.flatten := by
  intro bs
  induction bs with
  | nil => simp [buildSteps, batchesOf]
  | cons g rest ih =>
      cases g with
      | nil =>
          rw [show buildSteps ([] :: rest) = buildSteps rest from rfl, ih]
          simp
      | cons p ps =>
          rw [show buildSteps ((p :: ps) :: rest)
              = Step.mk p (buildSteps rest) :: ps.map (fun q => Step.mk q []) from rfl]
          rw [batchesOf]
          simp only [List.map_cons, List.map_map, Step.next, Step.obj, List.flatten_cons, ih]
          simp [Function.comp_def, Step.obj]

theorem flatten_map_singleton {α : Type} (l : List α) :
    (l.map (fun a => [a])).flatten = l := by
  induction l with
  | nil => rfl
  | cons a t ih => simp [ih]

theorem podLe_prio_mono (m : RoleMap) (a b : Pod) (h : podLe m a b) :
    prioOf m a.role ≤ prioOf m b.role := by
  unfold podLe podLess at h
  by_cases hp : prioOf m b.role = prioOf m a.role
  · omega
  · rw [if_neg hp] at h
    simp only [decide_eq_false_iff_not] at h
    omega

theorem filter_eq_takeWhile_of_mono {α : Type} (key : α → Nat) (p : α → Bool)
    (hdc : ∀ a b, key a ≤ key b → p b = true → p a = true) :
    ∀ l : List α, l.Pairwise (fun a b => key a ≤ key b) → l.filter p = l.takeWhile p := by
  intro l
  induction l with
  | nil => intro _; rfl
  | cons x xs ih =>
      intro hp
      by_cases hx : p x = true
      · rw [List.filter_cons_of_pos hx, List.takeWhile_cons_of_pos hx,
          ih (List.pairwise_cons.mp hp).2]
      · rw [List.filter_cons_of_neg hx, List.takeWhile_cons_of_neg hx]
        refine List.filter_eq_nil_iff.mpr ?_
        intro a ha hpa
        exact hx (hdc x a ((List.pairwise_cons.mp hp).1 a ha) hpa)

theorem dropWhile_eq_filter_not_of_mono {α : Type} (key : α → Nat) (p : α → Bool)
    (hdc : ∀ a b, key a ≤ key b → p b = true → p a = true) :
    ∀ l : List α, l.Pairwise (fun a b => key a ≤ key b) →
      l.dropWhile p = l.filter (fun a => !(p a)) := by
  intro l
  induction l with
  | nil => intro _; rfl
  | cons x xs ih =>
      intro hp
      by_cases hx : p x = true
      · rw [List.dropWhile_cons_of_pos hx, List.filter_cons_of_neg (by simp [hx]),
          ih (List.pairwise_cons.mp hp).2]
      · rw [List.dropWhile_cons_of_neg hx, List.filter_cons_of_pos (by simp [hx])]
        have hall : ∀ a ∈ xs, (!(p a)) = true := by
          intro a ha
          have : ¬ p a = true := fun hpa =>
            hx (hdc x a ((List.pairwise_cons.mp hp).1 a ha) hpa)
          simpa using this
        rw [List.filter_eq_self.mpr hall]

theorem drop_length_takeWhile {α : Type} (p : α → Bool) :
    ∀ l : List α, l.drop (l.takeWhile p).length = l.dropWhile p := by
  intro l
  induction l with
  | nil => rfl
  | cons x xs ih =>
      by_cases hx : p x = true
      · rw [List.takeWhile_cons_of_pos hx, List.dropWhile_cons_of_pos hx]
        simpa using ih
      · rw [List.takeWhile_cons_of_neg hx, List.dropWhile_cons_of_neg hx]
        rfl

theorem podLess_eq_false_iff (m : RoleMap) (a b : Pod) :
    (podLess m b a = false)
      ↔ (prioOf m a.role < prioOf m b.role
         ∨ (prioOf m a.role = prioOf m b.role ∧ a.ordinal ≤ b.ordinal)) := by
  unfold podLess
  by_cases h1 : prioOf m b.role = prioOf m a.role
  · rw [if_pos h1]
    simp only [decide_eq_false_iff_not, Nat.not_lt]
    omega
  · rw [if_neg h1]
    simp only [decide_eq_false_iff_not, Nat.not_lt]
    omega

instance (m : RoleMap) : IsTotal Pod (podLe m) :=
  ⟨by
    intro a b
    unfold podLe
    rw [podLess_eq_false_iff, podLess_eq_false_iff]
    omega⟩

instance (m : RoleMap) : IsTrans Pod (podLe m) :=
  ⟨by
    intro a b c hab hbc
    unfold podLe at hab hbc ⊢
    rw [podLess_eq_false_iff] at hab hbc ⊢
    omega⟩

/-- Under a priority-sorted pod list, the four groups of the best-effort
plan concatenate back to the whole list. -/
theorem bestEffortGroups_flatten (pods : List Pod) (m : RoleMap)
    (hs : pods.Pairwise (podLe m)) :
    (bestEffortGroups pods m).flatten = pods := by
  unfold bestEffortGroups
  simp only [List.flatten_cons, List.flatten_nil, List.append_nil]
  rw [List.take_append_drop, List.take_append_drop]
  have hmono : pods.Pairwise (fun a b => prioOf m a.role ≤ prioOf m b.role) :=
    hs.imp (fun h => podLe_prio_mono m _ _ h)
  rw [filter_eq_takeWhile_of_mono (fun q => prioOf m q.role)
      (fun q => decide (prioOf m q.role ≤ learnerPriority))
      (fun a b hab hpb => by
        have hab' : prioOf m a.role ≤ prioOf m b.role := hab
        simp only [decide_eq_true_eq] at hpb ⊢
        omega) pods hmono,
    drop_length_takeWhile, List.takeWhile_append_dropWhile]

/-! ### C2: every strategy's plan partitions the input pods -/

/-- C2: for each of the three update strategies, the generated plan contains
exactly the input pods — each appears in exactly one step of the walk, with
no duplication and no omission (a permutation of the input). -/
theorem updatePlan_partitions (c : ClusterComponentDefinition) (spec : ConsensusSetSpec)
    (pods : List Pod) (hs : c.consensusSpec = some spec)
    (hstrat : spec.updateStrategy = serialStrategy ∨ spec.updateStrategy = parallelStrategy
      ∨ spec.updateStrategy = bestEffortParallelStrategy) :
    ∃ steps, generateConsensusUpdatePlan c pods = some steps ∧ (planPods steps).Perm pods := by
  unfold generateConsensusUpdatePlan
  rw [hs]
  refine ⟨_, rfl, ?_⟩
  have hperm : (SortPods pods (ComposeRolePriorityMap c)).Perm pods :=
    List.perm_insertionSort _ _
  rcases hstrat with h | h | h
  · rw [if_pos h]
    unfold planPods generateConsensusSerialPlan
    rw [flatten_batchesOf_buildSteps, flatten_map_singleton]
    exact hperm
  · rw [if_neg (by rw [h]; decide), if_pos h]
    unfold planPods generateConsensusParallelPlan
    rw [flatten_batchesOf_buildSteps]
    simpa using hperm
  · rw [if_neg (by rw [h]; decide), if_neg (by rw [h]; decide), if_pos h]
    unfold planPods generateConsensusBestEffortParallelPlan
    have hsorted : (SortPods pods (ComposeRolePriorityMap c)).Pairwise
        (podLe (ComposeRolePriorityMap c)) := List.sorted_insertionSort _ _
    rw [flatten_batchesOf_buildSteps,
      bestEffortGroups_flatten (SortPods pods (ComposeRolePriorityMap c))
        (ComposeRolePriorityMap c) hsorted]
    exact hperm

/-- Witness for C2 at concrete inputs. -/
theorem updatePlan_partitions_witness :
    ∃ steps, generateConsensusUpdatePlan demoComp demoPods = some steps
      ∧ (planPods steps).Perm demoPods :=
  updatePlan_partitions demoComp demoSpec demoPods rfl (Or.inr (Or.inr rfl))

/-! ### C1: the four batch groups of BestEffortParallel -/

/-- All pods whose role priority is at most the learner priority. -/
def lowGroup (pods : List Pod) (m : RoleMap) : List Pod :=
  pods.filter (fun pod => prioOf m pod.role ≤ learnerPriority)

/-- The follower pods: priority strictly between learner and leader. -/
def followerGroup (pods : List Pod) (m : RoleMap) : List Pod :=
  pods.filter (fun pod =>
    decide (prioOf m pod.role < leaderPriority) && decide (learnerPriority < prioOf m pod.role))

/-- The leader-priority pods. -/
def leaderGroup (pods : List Pod) (m : RoleMap) : List Pod :=
  pods.filter (fun pod => prioOf m pod.role = leaderPriority)

/-- C1: on a pod list sorted by (priority ascending, ordinal ascending)
under a priority map bounded by the leader priority, the BestEffortParallel
plan consists of exactly four batch groups in order — all pods of priority
at most the learner priority; the first `F / 2` of the follower pods;
the remaining `F - F / 2` followers; and all leader-priority pods last. -/
theorem bestEffortParallel_four_groups (pods : List Pod) (m : RoleMap)
    (hs : pods.Pairwise (podLe m))
    (hb : ∀ q ∈ pods, prioOf m q.role ≤ leaderPriority) :
    bestEffortGroups pods m =
      [lowGroup pods m,
       (followerGroup pods m).take ((followerGroup pods m).length / 2),
       (followerGroup pods m).drop ((followerGroup pods m).length / 2),
       leaderGroup pods m]
    ∧ generateConsensusBestEffortParallelPlan pods m
        = buildSteps
            [lowGroup pods m,
             (followerGroup pods m).take ((followerGroup pods m).length / 2),
             (followerGroup pods m).drop ((followerGroup pods m).length / 2),
             leaderGroup pods m]
    ∧ ((followerGroup pods m).take ((followerGroup pods m).length / 2)).length
        = (followerGroup pods m).length / 2
    ∧ ((followerGroup pods m).drop ((followerGroup pods m).length / 2)).length
        = (followerGroup pods m).length - (followerGroup pods m).length / 2 := by
  have hmono1 : pods.Pairwise (fun a b => prioOf m a.role ≤ prioOf m b.role) :=
    hs.imp (fun h => podLe_prio_mono m _ _ h)
  have htw1 : pods.filter (fun pod => decide (prioOf m pod.role ≤ learnerPriority))
      = pods.takeWhile (fun pod => decide (prioOf m pod.role ≤ learnerPriority)) :=
    filter_eq_takeWhile_of_mono _ _ (fun a b hab hpb => by
      have hab' : prioOf m a.role ≤ prioOf m b.role := hab
      simp only [decide_eq_true_eq] at hpb ⊢
      omega) pods hmono1
  have hdropA : pods.drop
        (pods.filter (fun pod => decide (prioOf m pod.role ≤ learnerPriority))).length
      = pods.dropWhile (fun pod => decide (prioOf m pod.role ≤ learnerPriority)) := by
    rw [htw1, drop_length_takeWhile]
  have hdw1filter : pods.dropWhile (fun pod => decide (prioOf m pod.role ≤ learnerPriority))
      = pods.filter (fun pod => !(decide (prioOf m pod.role ≤ learnerPriority))) :=
    dropWhile_eq_filter_not_of_mono _ _ (fun a b hab hpb => by
      have hab' : prioOf m a.role ≤ prioOf m b.role := hab
      simp only [decide_eq_true_eq] at hpb ⊢
      omega) pods hmono1
  have hmono2 : (pods.dropWhile
        (fun pod => decide (prioOf m pod.role ≤ learnerPriority))).Pairwise
        (fun a b => prioOf m a.role ≤ prioOf m b.role) := by
    rw [hdw1filter]
    exact List.Pairwise.sublist (List.filter_sublist _) hmono1
  have htw2 : (pods.dropWhile
        (fun pod => decide (prioOf m pod.role ≤ learnerPriority))).filter
        (fun pod => decide (prioOf m pod.role < leaderPriority))
      = (pods.dropWhile
        (fun pod => decide (prioOf m pod.role ≤ learnerPriority))).takeWhile
        (fun pod => decide (prioOf m pod.role < leaderPriority)) :=
    filter_eq_takeWhile_of_mono _ _ (fun a b hab hpb => by
      have hab' : prioOf m a.role ≤ prioOf m b.role := hab
      simp only [decide_eq_true_eq] at hpb ⊢
      omega) _ hmono2
  have hfg : (pods.dropWhile
        (fun pod => decide (prioOf m pod.role ≤ learnerPriority))).filter
        (fun pod => decide (prioOf m pod.role < leaderPriority))
      = followerGroup pods m := by
    rw [hdw1filter, List.filter_filter]
    refine List.filter_congr ?_
    intro x _
    by_cases hcase : learnerPriority < prioOf m x.role
    · simp [hcase, show ¬(prioOf m x.role ≤ learnerPriority) from by omega]
    · simp [hcase, show prioOf m x.role ≤ learnerPriority from by omega]
  have htwfg : (pods.dropWhile
        (fun pod => decide (prioOf m pod.role ≤ learnerPriority))).takeWhile
        (fun pod => decide (prioOf m pod.role < leaderPriority))
      = followerGroup pods m := htw2.symm.trans hfg
  have hB : (pods.dropWhile
        (fun pod => decide (prioOf m pod.role ≤ learnerPriority))).countP
        (fun pod => decide (prioOf m pod.role < leaderPriority))
      = (followerGroup pods m).length := by
    rw [List.countP_eq_length_filter, hfg]
  have hsplit : pods.dropWhile (fun pod => decide (prioOf m pod.role ≤ learnerPriority))
      = followerGroup pods m
        ++ (pods.dropWhile
            (fun pod => decide (prioOf m pod.role ≤ learnerPriority))).dropWhile
            (fun pod => decide (prioOf m pod.role < leaderPriority)) := by
    conv_lhs => rw [← List.takeWhile_append_dropWhile
      (fun pod => decide (prioOf m pod.role < leaderPriority))
      (pods.dropWhile (fun pod => decide (prioOf m pod.role ≤ learnerPriority)))]
    rw [htwfg]
  have hE : (pods.dropWhile
        (fun pod => decide (prioOf m pod.role ≤ learnerPriority))).dropWhile
        (fun pod => decide (prioOf m pod.role < leaderPriority))
      = leaderGroup pods m := by
    rw [dropWhile_eq_filter_not_of_mono _ _ (fun a b hab hpb => by
        have hab' : prioOf m a.role ≤ prioOf m b.role := hab
        simp only [decide_eq_true_eq] at hpb ⊢
        omega) _ hmono2,
      hdw1filter, List.filter_filter]
    refine List.filter_congr ?_
    intro x hx
    have hbx : prioOf m x.role ≤ leaderPriority := hb x hx
    have hLL : learnerPriority < leaderPriority := by decide
    by_cases h32 : prioOf m x.role < leaderPriority
    · simp [h32, show ¬(prioOf m x.role = leaderPriority) from by omega]
    · rw [show prioOf m x.role = leaderPriority from by omega]
      simp [show ¬(leaderPriority < leaderPriority) from by omega,
        show ¬(leaderPriority ≤ learnerPriority) from by omega]
  have hdiv : (followerGroup pods m).length / 2 ≤ (followerGroup pods m).length :=
    Nat.div_le_self _ _
  have hgroups : bestEffortGroups pods m =
      [lowGroup pods m,
       (followerGroup pods m).take ((followerGroup pods m).length / 2),
       (followerGroup pods m).drop ((followerGroup pods m).length / 2),
       leaderGroup pods m] := by
    unfold bestEffortGroups
    dsimp only
    rw [hdropA, hB, hsplit]
    have hlen2 : (followerGroup pods m).length / 2 ≤ (followerGroup pods m).length := hdiv
    rw [List.take_append_of_le_length hlen2,
      List.drop_append_of_le_length hlen2,
      List.take_left' (by rw [List.length_drop]),
      List.drop_left' (by rw [List.length_drop]), hE]
    rfl
  refine ⟨hgroups, ?_, ?_, ?_⟩
  · unfold generateConsensusBestEffortParallelPlan
    rw [hgroups]
  · rw [List.length_take]
    omega
  · rw [List.length_drop]

/-- Witness for C1 at a concrete sorted pod list under the demo priority
map. -/
theorem bestEffortParallel_four_groups_witness :
    bestEffortGroups demoPods (ComposeRolePriorityMap demoComp) =
      [lowGroup demoPods (ComposeRolePriorityMap demoComp),
       (followerGroup demoPods (ComposeRolePriorityMap demoComp)).take
         ((followerGroup demoPods (ComposeRolePriorityMap demoComp)).length / 2),
       (followerGroup demoPods (ComposeRolePriorityMap demoComp)).drop
         ((followerGroup demoPods (ComposeRolePriorityMap demoComp)).length / 2),
       leaderGroup demoPods (ComposeRolePriorityMap demoComp)] :=
  (bestEffortParallel_four_groups demoPods (ComposeRolePriorityMap demoComp)
    (by decide) (by decide)).1

theorem foldl_followerInsert_bounded (fs : List ConsensusMember) (m : RoleMap)
    (h : ∀ e ∈ m, e.2 ≤ leaderPriority) :
    ∀ e ∈ fs.foldl followerInsert m, e.2 ≤ leaderPriority := by
  induction fs generalizing m with
  | nil => exact h
  | cons g rest ih =>
      rw [List.foldl_cons]
      refine ih _ ?_
      intro e he
      unfold followerInsert mapInsert at he
      split at he
      · rcases List.mem_cons.mp he with rfl | hm
        · exact show followerNonePriority ≤ leaderPriority by decide
        · exact h e hm
      · split at he
        · rcases List.mem_cons.mp he with rfl | hm
          · exact show followerReadonlyPriority ≤ leaderPriority by decide
          · exact h e hm
        · split at he
          · rcases List.mem_cons.mp he with rfl | hm
            · exact show followerReadWritePriority ≤ leaderPriority by decide
            · exact h e hm
          · exact h e he

/-- Every priority the composed map can return is at most the leader
priority, so C1's bound hypothesis holds for every map the code builds. -/
theorem composeRolePriorityMap_bounded (c : ClusterComponentDefinition) (k : String) :
    prioOf (ComposeRolePriorityMap c) k ≤ leaderPriority := by
  unfold prioOf
  cases hf : (ComposeRolePriorityMap c).find? (fun e => e.1 == k) with
  | none => exact Nat.zero_le _
  | some e =>
      have hmem := List.mem_of_find?_eq_some hf
      unfold ComposeRolePriorityMap at hmem
      refine foldl_followerInsert_bounded _ _ ?_ e hmem
      intro x hx
      cases hl : (effectiveConsensusSpec c).learner with
      | none =>
          rw [hl] at hx
          unfold mapInsert at hx
          rcases List.mem_cons.mp hx with rfl | hx2
          · exact show leaderPriority ≤ leaderPriority by decide
          · rcases List.mem_cons.mp hx2 with rfl | hx3
            · exact show emptyPriority ≤ leaderPriority by decide
            · cases hx3
      | some l =>
          rw [hl] at hx
          unfold mapInsert at hx
          rcases List.mem_cons.mp hx with rfl | hx2
          · exact show learnerPriority ≤ leaderPriority by decide
          · rcases List.mem_cons.mp hx2 with rfl | hx3
            · exact show leaderPriority ≤ leaderPriority by decide
            · rcases List.mem_cons.mp hx3 with rfl | hx4
              · exact show emptyPriority ≤ leaderPriority by decide
              · cases hx4

/-! ### C6: config propagation of leader / follower names -/

def podA : Pod :=
  { name := "pod-a", ordinal := 4, role := "follower", revision := "r1",
    ready := true, terminating := false }

def podB : Pod :=
  { name := "pod-b", ordinal := 3, role := "follower", revision := "r1",
    ready := true, terminating := false }

/-- The consensus role a label resolves to under a present spec ("" when the
label has no role-map entry). -/
def extRoleOf (spec : ConsensusSetSpec) (label : String) : String :=
  match extLookup (composeConsensusRoleMapSpec spec) label with
  | some ext => ext.consensusRole
  | none => ""

/-- The names, in pod-list order, of the pods whose label resolves to the
follower role. -/
def followerPodNames (spec : ConsensusSetSpec) (pods : List Pod) : List String :=
  (pods.filter (fun q => extRoleOf spec q.role == roleFollower)).map Pod.name

/-- The name of the last pod in list order whose label resolves to the
leader role ("" when there is none). -/
def leaderPodName (spec : ConsensusSetSpec) (pods : List Pod) : String :=
  ((pods.filter (fun q => extRoleOf spec q.role == roleLeader)).map Pod.name).getLast?.getD ""

/-- The comma-join accumulation of `updateConsensusRoleInfo`, started from
`s`. -/
def commaJoinFrom (s : String) (names : List String) : String :=
  names.foldl (fun acc n => if acc.length > 0 then acc ++ "," ++ n else acc ++ n) s

def commaJoin (names : List String) : String :=
  commaJoinFrom "" names

def strLeProp (a b : String) : Prop :=
  strLe a b = true

instance : DecidableRel strLeProp :=
  fun a b => inferInstanceAs (Decidable (strLe a b = true))

/-- Per the spec's words: the comma-joined, sorted follower pod names. -/
def sortedCommaJoin (names : List String) : String :=
  commaJoin (List.insertionSort strLeProp names)

/-- One pure iteration of the `updateConsensusRoleInfo` accumulation loop. -/
def roleInfoStep (spec : ConsensusSetSpec) (acc : String × String) (pod : Pod) :
    String × String :=
  match extLookup (composeConsensusRoleMapSpec spec) pod.role with
  | none => acc
  | some ext =>
      if ext.consensusRole = roleLeader then (pod.name, acc.2)
      else if ext.consensusRole = roleFollower then
        (acc.1, if acc.2.length > 0 then acc.2 ++ "," ++ pod.name else acc.2 ++ pod.name)
      else acc

theorem foldlM_option_of_some {α β : Type} (g : β → α → β) (F : β → α → Option β)
    (hF : ∀ b a, F b a = some (g b a)) :
    ∀ (l : List α) (b : β), l.foldlM F b = some (l.foldl g b) := by
  intro l
  induction l with
  | nil => intro b; rfl
  | cons x xs ih =>
      intro b
      rw [List.foldlM_cons, hF b x, List.foldl_cons]
      exact ih (g b x)

theorem consensusRoleInfo_eq_foldl (c : ClusterComponentDefinition) (spec : ConsensusSetSpec)
    (hs : c.consensusSpec = some spec) (pods : List Pod) :
    consensusRoleInfo c pods = some (pods.foldl (roleInfoStep spec) ("", "")) := by
  have hc : composeConsensusRoleMap c = some (composeConsensusRoleMapSpec spec) := by
    unfold composeConsensusRoleMap
    rw [hs]
    rfl
  unfold consensusRoleInfo
  exact foldlM_option_of_some (roleInfoStep spec) _ (fun b a => by rw [hc]; rfl) pods ("", "")

theorem getLastD_shift {α : Type} :
    ∀ (xs : List α) (a d : α), (a :: xs).getLast?.getD d = xs.getLast?.getD a := by
  intro xs
  induction xs with
  | nil => intro a d; rfl
  | cons b t ih =>
      intro a d
      rw [List.getLast?_cons_cons, ih b d, ← ih b a]

theorem roleInfoFold_eq (spec : ConsensusSetSpec) :
    ∀ (pods : List Pod) (l f : String),
      pods.foldl (roleInfoStep spec) (l, f)
        = (((pods.filter (fun q => extRoleOf spec q.role == roleLeader)).map
              Pod.name).getLast?.getD l,
           commaJoinFrom f ((pods.filter
              (fun q => extRoleOf spec q.role == roleFollower)).map Pod.name)) := by
  intro pods
  induction pods with
  | nil => intro l f; rfl
  | cons q rest ih =>
      intro l f
      rw [List.foldl_cons]
      cases hx : extLookup (composeConsensusRoleMapSpec spec) q.role with
      | none =>
          rw [show roleInfoStep spec (l, f) q = (l, f) from by
            unfold roleInfoStep; simp only [hx]]
          rw [List.filter_cons_of_neg (by simp [extRoleOf, hx]; decide),
            List.filter_cons_of_neg (by simp [extRoleOf, hx]; decide)]
          exact ih l f
      | some ext =>
          by_cases h1 : ext.consensusRole = roleLeader
          · rw [show roleInfoStep spec (l, f) q = (q.name, f) from by
              unfold roleInfoStep; simp only [hx, if_pos h1]]
            rw [List.filter_cons_of_pos (by simp [extRoleOf, hx, h1]),
              List.filter_cons_of_neg (by simp [extRoleOf, hx, h1]; decide)]
            rw [ih q.name f, List.map_cons, getLastD_shift]
          · by_cases h2 : ext.consensusRole = roleFollower
            · rw [show roleInfoStep spec (l, f) q
                  = (l, if f.length > 0 then f ++ "," ++ q.name else f ++ q.name) from by
                unfold roleInfoStep; simp only [hx, if_neg h1, if_pos h2]]
              rw [List.filter_cons_of_neg (by simp [extRoleOf, hx]; simpa using h1),
                List.filter_cons_of_pos (by simp [extRoleOf, hx, h2])]
              rw [ih l _, List.map_cons]
              rfl
            · rw [show roleInfoStep spec (l, f) q = (l, f) from by
                unfold roleInfoStep; simp only [hx, if_neg h1, if_neg h2]]
              rw [List.filter_cons_of_neg (by simp [extRoleOf, hx]; simpa using h1),
                List.filter_cons_of_neg (by simp [extRoleOf, hx]; simpa using h2)]
              exact ih l f

theorem followersKey_ne_leaderKey (u : String) :
    ("KB_" ++ u ++ "_FOLLOWERS") ≠ ("KB_" ++ u ++ "_LEADER") := by
  intro h
  have hlen := congrArg String.length h
  simp only [String.length_append] at hlen
  have h1 : ("_FOLLOWERS" : String).length = 10 := by decide
  have h2 : ("_LEADER" : String).length = 7 := by decide
  omega

/-! ### C9: structural non-convergence defers plan building -/

/-- C9: when the StatefulSet's generation differs from its observed
generation, or the observed pod count differs from the desired replica
count, `handleConsensusSetUpdate` returns `(false, nil)` — incomplete, not
an error — without building a plan and without issuing any delete, while
the status reconciliation preceding those checks (and, on a changed status,
the config propagation it gates) has still run. -/
theorem handleConsensusSetUpdate_not_ready (sts : StatefulSetObs)
    (c : ClusterComponentDefinition) (spec : ConsensusSetSpec)
    (old : Option ConsensusSetStatus) (componentName : String) (pods : List Pod)
    (configs : List ConfigRec) (s : ConsensusSetStatus) (b : Bool)
    (hw : c.workloadType = consensusWorkloadType)
    (hspec : c.consensusSpec = some spec)
    (hr : reconcileStatusPass old c pods = some (s, b))
    (hcheck : sts.generation ≠ sts.observedGeneration ∨ pods.length ≠ sts.replicas) :
    ∃ cfgs, handleConsensusSetUpdate sts (some c) old componentName pods configs
      = some { done := false, newStatus := some s, changed := b, planned := false,
               deletes := [], configs := cfgs } := by
  have hprop : ∃ cfgs, (if b then updateConsensusRoleInfo c componentName pods configs
      else some configs) = some cfgs := by
    cases b with
    | false => exact ⟨configs, rfl⟩
    | true =>
        rw [if_pos rfl]
        unfold updateConsensusRoleInfo
        rw [consensusRoleInfo_eq_foldl c spec hspec pods]
        exact ⟨_, rfl⟩
  obtain ⟨cfgs, hcfgs⟩ := hprop
  refine ⟨cfgs, ?_⟩
  simp only [handleConsensusSetUpdate]
  rw [if_neg (by simp [hw]), hr, Option.some_bind, hcfgs, Option.some_bind]
  by_cases hg : sts.generation ≠ sts.observedGeneration
  · simp [hg]
  · rcases hcheck with hg2 | hp
    · exact absurd hg2 hg
    · simp [hg, hp]

/-- Witness for C9 at concrete inputs. -/
theorem handleConsensusSetUpdate_not_ready_witness :
    ∃ cfgs, handleConsensusSetUpdate ⟨2, 1, 3, "r2"⟩ (some demoComp) none "comp" demoPods []
      = some { done := false,
               newStatus := some (ConsensusSetStatus.mk
                 { name := "leader", pod := "pod-2", accessMode := accessModeReadWrite }
                 [{ name := "follower", pod := "pod-0", accessMode := accessModeReadonly },
                  { name := "follower", pod := "pod-1", accessMode := accessModeReadonly }] none),
               changed := true, planned := false, deletes := [], configs := cfgs } :=
  handleConsensusSetUpdate_not_ready ⟨2, 1, 3, "r2"⟩ demoComp demoSpec none "comp" demoPods []
    _ true rfl rfl (by decide) (Or.inl (by decide))

/-- C6 counterexample: with two follower pods listed as pod-b before pod-a,
the propagated `<COMPONENT>_FOLLOWERS` value is "pod-b,pod-a" — the
comma-join in pod-list order — while the comma-joined sorted follower names
are "pod-a,pod-b": the value stored is not the sorted join. -/
theorem configPropagation_unsorted_counterexample :
    updateConsensusRoleInfo demoComp "comp" [podB, podA] [ConfigRec.mk []]
      = some [ConfigRec.mk
          [("KB_" ++ "comp".toUpper ++ "_FOLLOWERS", "pod-b,pod-a"),
           ("KB_" ++ "comp".toUpper ++ "_LEADER", "")]]
    ∧ sortedCommaJoin ["pod-b", "pod-a"] = "pod-a,pod-b"
    ∧ ("pod-b,pod-a" : String) ≠ "pod-a,pod-b" := by
  refine ⟨?_, by decide, by decide⟩
  have h1 : consensusRoleInfo demoComp [podB, podA] = some ("", "pod-b,pod-a") := by decide
  unfold updateConsensusRoleInfo
  rw [h1]
  rfl

/-- C6 (amended): when the status changed, config propagation sets, in
every matching config record, `KB_<COMPONENT>_LEADER` to the name of the
last pod in list order carrying a leader-role label ("" when none) and
`KB_<COMPONENT>_FOLLOWERS` to the comma-join, in pod-list order, of the
names of the pods carrying follower-role labels (sorted only when the input
list itself is sorted by name). -/
theorem updateConsensusRoleInfo_sets_keys (c : ClusterComponentDefinition)
    (spec : ConsensusSetSpec) (componentName : String) (pods : List Pod)
    (configs : List ConfigRec) (out : List ConfigRec)
    (hs : c.consensusSpec = some spec)
    (hout : updateConsensusRoleInfo c componentName pods configs = some out) :
    out.length = configs.length
    ∧ ∀ cfg ∈ out,
        dataLookup cfg.data ("KB_" ++ componentName.toUpper ++ "_LEADER")
          = some (leaderPodName spec pods)
        ∧ dataLookup cfg.data ("KB_" ++ componentName.toUpper ++ "_FOLLOWERS")
          = some (commaJoin (followerPodNames spec pods)) := by
  have hinfo : consensusRoleInfo c pods
      = some (leaderPodName spec pods, commaJoin (followerPodNames spec pods)) := by
    rw [consensusRoleInfo_eq_foldl c spec hs pods, roleInfoFold_eq spec pods "" ""]
    rfl
  unfold updateConsensusRoleInfo at hout
  rw [hinfo] at hout
  simp only [Option.map_some', Option.some.injEq] at hout
  subst hout
  constructor
  · rw [List.length_map]
  · intro cfg hcfg
    rcases List.mem_map.mp hcfg with ⟨cfg0, _, rfl⟩
    constructor
    · unfold dataLookup
      rw [List.find?_cons_of_neg _ (by
          simpa using followersKey_ne_leaderKey componentName.toUpper),
        List.find?_cons_of_pos _ (by simp)]
      rfl
    · unfold dataLookup
      rw [List.find?_cons_of_pos _ (by simp)]
      rfl

/-- Witness for C6's amended theorem at concrete inputs. -/
theorem updateConsensusRoleInfo_sets_keys_witness :
    dataLookup (ConfigRec.mk
        [("KB_" ++ "comp".toUpper ++ "_FOLLOWERS", "pod-b,pod-a"),
         ("KB_" ++ "comp".toUpper ++ "_LEADER", "")]).data
        ("KB_" ++ "comp".toUpper ++ "_FOLLOWERS")
      = some (commaJoin (followerPodNames demoSpec [podB, podA])) :=
  ((updateConsensusRoleInfo_sets_keys demoComp demoSpec "comp" [podB, podA]
      [ConfigRec.mk []]
      [ConfigRec.mk
        [("KB_" ++ "comp".toUpper ++ "_FOLLOWERS", "pod-b,pod-a"),
         ("KB_" ++ "comp".toUpper ++ "_LEADER", "")]]
      rfl
      (by
        have h1 : consensusRoleInfo demoComp [podB, podA] = some ("", "pod-b,pod-a") := by
          decide
        unfold updateConsensusRoleInfo
        rw [h1]
        rfl)).2 _ (List.mem_singleton_self _)).2

end ConsensusSet
